import Mathlib

/-!
Verification development for the `g-map-backend` repository (`app.py`).

The service is a Flask app exposing `POST /shortest-path` over a cached
OpenStreetMap road graph of Bengaluru.  This file gives a shallow embedding
of the repository's data model and operations:

* Python floats are modelled as rationals (`ℚ`); all arithmetic in the
  source is on small decimal values where IEEE-754 rounding is irrelevant
  to the stated claims.
* Python strings handled by the service are modelled as `List Char`, so
  that tokenizing and numeric parsing are executable by kernel reduction.
* The mutable service object (`RouteService`) is modelled as an explicit
  state record threaded through each operation.
* Python exceptions are modelled with `Except` / an explicit raised value;
  `try/except` blocks become pattern matches on those results.
* External library calls (`osmnx` download and nearest-node search,
  `networkx` shortest path, `folium` rendering, `pickle` persistence) are
  modelled by executable functions matching their documented behaviour;
  the repository's own code is translated statement by statement.
-/

/-- A Python string, as a list of characters. -/
abbrev PyStr := List Char

/-- Python exception values, as far as the service can observe them.  The
`keyError` constructor carries the missing key. -/
inductive Exn where
  | keyError (k : String)
  | typeError
  | valueError
  | indexError
  | zeroDivisionError
  | attributeError
  | oxPlaceError
  | oxBboxError
  | noPath
  | nodeNotFound
deriving DecidableEq

/-- The text `str(e)` of an exception, as interpolated into a 500 response
by the handler.  For `KeyError` Python prints the missing key. -/
def exnMsg : Exn → String
  | .keyError k => k
  | .typeError => "unsupported operand or call"
  | .valueError => "could not convert string to float"
  | .indexError => "list index out of range"
  | .zeroDivisionError => "float division by zero"
  | .attributeError => "NoneType object has no attribute"
  | .oxPlaceError => "graph_from_place failed"
  | .oxBboxError => "graph_from_bbox failed"
  | .noPath => "no path between nodes"
  | .nodeNotFound => "node not in graph"

/-- A scalar OSM attribute value: a number or a string. -/
inductive SpeedScalar where
  | num (q : ℚ)
  | str (s : PyStr)
deriving DecidableEq

/-- The possible shapes of an OSM `maxspeed` edge attribute before
normalization: a number, a string such as "40 mph", or a list of scalar
values. -/
inductive SpeedVal where
  | num (q : ℚ)
  | str (s : PyStr)
  | vlist (l : List SpeedScalar)
deriving DecidableEq

/-- Value of one decimal digit character. -/
def digitVal (c : Char) : ℕ := c.toNat - 48

/-- Read a run of decimal digits into an accumulator; fails on any
non-digit character. -/
def digitsToNat : List Char → ℕ → Option ℕ
  | [], acc => some acc
  | c :: cs, acc =>
    if c.isDigit then digitsToNat cs (acc * 10 + digitVal c) else none

/-- Split a character list at the first decimal point: integer part,
fractional part, and whether a point was present. -/
def splitDot : List Char → List Char × List Char × Bool
  | [] => ([], [], false)
  | c :: rest =>
    if c = '.' then ([], rest, true)
    else
      let r := splitDot rest
      (c :: r.1, r.2.1, r.2.2)

/-- Drop leading whitespace characters. -/
def dropWs : List Char → List Char
  | [] => []
  | c :: cs => if c.isWhitespace then dropWs cs else c :: cs

/-- Model of Python `str.strip()`: drop surrounding whitespace. -/
def pyStrip (s : PyStr) : PyStr :=
  (dropWs (dropWs s.reverse).reverse)

/-- Model of the Python builtin `float` applied to a string: surrounding
whitespace is ignored, then an optional sign and a decimal literal
(`"40"`, `"40.5"`, `".5"`, `"40."`) are accepted; anything else raises
`ValueError` (modelled as `none`).  Exponent and infinity forms, which do
not occur in OSM speed data, are not modelled. -/
def parseFloat (s : PyStr) : Option ℚ :=
  match pyStrip s with
  | [] => none
  | c0 :: rest0 =>
    let signed : ℚ × List Char :=
      if c0 = '-' then (-1, rest0)
      else if c0 = '+' then (1, rest0)
      else (1, c0 :: rest0)
    let parts := splitDot signed.2
    if parts.1 = [] ∧ (parts.2.2 = false ∨ parts.2.1 = []) then none
    else
      match digitsToNat parts.1 0, digitsToNat parts.2.1 0 with
      | some ip, some fp =>
        some (signed.1 * ((ip : ℚ) + (fp : ℚ) / ((10 : ℚ) ^ parts.2.1.length)))
      | _, _ => none

/-- Helper for `pyTokens`: accumulate the current word (reversed). -/
def pyTokensAux : List Char → List Char → List PyStr
  | [], cur => if cur = [] then [] else [cur.reverse]
  | c :: cs, cur =>
    if c.isWhitespace then
      if cur = [] then pyTokensAux cs []
      else cur.reverse :: pyTokensAux cs []
    else pyTokensAux cs (c :: cur)

/-- Model of Python `str.split()` with no argument: split on whitespace,
dropping empty fragments. -/
def pyTokens (s : PyStr) : List PyStr :=
  pyTokensAux s []

/-- Model of the Python builtin `float` applied to a scalar attribute
value: numbers pass through, strings are parsed whole (so `"40 mph"`
raises `ValueError`). -/
def pyFloatScalar : SpeedScalar → Option ℚ
  | .num q => some q
  | .str s => parseFloat s

/-- Attribute record of one graph edge.  `length` is always present in
osmnx output; `maxspeed` and `travel_time` may be absent. -/
structure EdgeAttrs where
  maxspeed : Option SpeedVal
  length : ℚ
  travel_time : Option ℚ
deriving DecidableEq

/-- Final step of the per-edge annotation loop (`app.py` lines 79-83):
`data["travel_time"] = length / (speed * 1000 / 3600)`, raising
`ZeroDivisionError` when the divisor is zero. -/
def annotateFinish (d : EdgeAttrs) (speed : ℚ) : EdgeAttrs × Option Exn :=
  if speed * 1000 / 3600 = 0 then (d, some .zeroDivisionError)
  else ({ d with travel_time := some (d.length / (speed * 1000 / 3600)) }, none)

/-- One iteration of the edge annotation loop (`app.py` lines 71-83):
default the missing `maxspeed` to 30, replace a list by `float` of its
first element, replace a string by `float` of its first whitespace token,
then compute the travel time.  Returns the (possibly partially mutated)
attribute record together with the exception raised, if any. -/
def annotateEdge (d0 : EdgeAttrs) : EdgeAttrs × Option Exn :=
  let v := d0.maxspeed.getD (.num 30)
  let d1 := { d0 with maxspeed := some v }
  match v with
  | .vlist [] => (d1, some .indexError)
  | .vlist (h :: _) =>
    match pyFloatScalar h with
    | none => (d1, some .valueError)
    | some q => annotateFinish { d1 with maxspeed := some (.num q) } q
  | .str s =>
    match pyTokens s with
    | [] => (d1, some .indexError)
    | tok :: _ =>
      match parseFloat tok with
      | none => (d1, some .valueError)
      | some q => annotateFinish { d1 with maxspeed := some (.num q) } q
  | .num q => annotateFinish d1 q

/-- Speed selection as worded by the specification: default 30 when the
attribute is absent, the first element when it is a list, the leading
numeric token when it is a string.  Used to compare `annotateEdge`
against the spec. -/
def specSpeed : Option SpeedVal → Option ℚ
  | none => some 30
  | some (.num q) => some q
  | some (.vlist l) => l.head?.bind pyFloatScalar
  | some (.str s) => ((pyTokens s).head?).bind parseFloat

/-- Node identifiers: OSM node ids. -/
abbrev Node := ℕ

/-- Node attribute record: `y` is latitude, `x` is longitude, as stored by
osmnx on every node. -/
structure NodeAttrs where
  y : ℚ
  x : ℚ
deriving DecidableEq

/-- A `networkx.MultiDiGraph` as the service uses it: a node list with
attributes, and an adjacency association list mapping an ordered node pair
to its list of parallel edges (keyed 0, 1, ... in list order). -/
structure MultiGraph where
  nodeAttrs : List (Node × NodeAttrs)
  adj : List ((Node × Node) × List EdgeAttrs)
deriving DecidableEq

/-- The node ids of a graph, in insertion order. -/
def nodeIds (g : MultiGraph) : List Node :=
  g.nodeAttrs.map (fun e => e.1)

/-- Model of `G.nodes[n]`: attribute lookup for a node. -/
def lookupNode (g : MultiGraph) (n : Node) : Option NodeAttrs :=
  (g.nodeAttrs.find? (fun e => decide (e.1 = n))).map (fun e => e.2)

/-- Model of `G[u][v]`: the parallel edges from `u` to `v` (empty when the pair is
absent). -/
def edgesBetween (g : MultiGraph) (u v : Node) : List EdgeAttrs :=
  ((g.adj.find? (fun e => decide (e.1 = (u, v)))).map (fun e => e.2)).getD []

/-- Whether the graph has at least one edge from `u` to `v`. -/
def edgeExists (g : MultiGraph) (u v : Node) : Bool :=
  !(edgesBetween g u v).isEmpty

/-- Model of `len(G)`: the number of nodes; a graph object is falsy in Python
exactly when this is zero. -/
def graphLen (g : MultiGraph) : ℕ :=
  g.nodeAttrs.length

/-- Truthiness of `self.graph`: `None` and an empty graph are falsy. -/
def graphTruthy : Option MultiGraph → Bool
  | none => false
  | some g => decide (0 < graphLen g)

/-- Run the annotation loop over one parallel-edge list, stopping at the
first exception; edges after the failure point keep their original
attributes, matching in-place mutation order. -/
def annotateEdges : List EdgeAttrs → List EdgeAttrs × Option Exn
  | [] => ([], none)
  | d :: rest =>
    match annotateEdge d with
    | (e, some ex) => (e :: rest, some ex)
    | (e, none) =>
      let r := annotateEdges rest
      (e :: r.1, r.2)

/-- Run the annotation loop over the whole adjacency structure, in list
order, stopping at the first exception. -/
def annotateAdj :
    List ((Node × Node) × List EdgeAttrs) →
      List ((Node × Node) × List EdgeAttrs) × Option Exn
  | [] => ([], none)
  | (k, es) :: rest =>
    match annotateEdges es with
    | (es2, some ex) => ((k, es2) :: rest, some ex)
    | (es2, none) =>
      let r := annotateAdj rest
      ((k, es2) :: r.1, r.2)

/-- The `for _, _, data in self.graph.edges(data=True)` loop of
`download_and_cache_graph` / `download_using_bbox`: annotate every edge,
returning the mutated graph and the first exception, if any. -/
def annotateGraph (g : MultiGraph) : MultiGraph × Option Exn :=
  let r := annotateAdj g.adj
  (⟨g.nodeAttrs, r.1⟩, r.2)

/-- Contents of the on-disk `bengaluru_graph.pickle` file: absent, present
but failing to unpickle, or holding a graph. -/
inductive CacheFile where
  | absent
  | corrupt
  | holds (g : MultiGraph)
deriving DecidableEq

/-- The mutable state of the process: the `RouteService` fields, the cache
file, plus instrumentation counters for external calls (number of
`ox.nearest_nodes` invocations and of download attempts by each method). -/
structure SysState where
  graph : Option MultiGraph
  lastUpdate : Option ℚ
  cacheFile : CacheFile
  nnCache : List ((ℚ × ℚ) × Node)
  nnCalls : ℕ
  placeAttempts : ℕ
  bboxAttempts : ℕ
deriving DecidableEq

/-- The environment of one refresh: what the two osmnx download calls
would return (`none` models a raised exception), and the current time in
seconds. -/
structure Env where
  placeResult : Option MultiGraph
  bboxResult : Option MultiGraph
  now : ℚ

/-- Translation of `should_update_graph` (`app.py` lines 46-51): true when no truthy
graph or no timestamp is present, or when the age exceeds the 24h
interval (86400 seconds). -/
def should_update_graph (st : SysState) (now : ℚ) : Bool :=
  if graphTruthy st.graph = false then true
  else
    match st.lastUpdate with
    | none => true
    | some t => decide (86400 < now - t)

/-- Translation of `download_using_bbox` (`app.py` lines 94-130): attempt the bounding
box download, annotate every edge, persist to the cache file; any
exception is re-raised (returned). -/
def download_using_bbox (st : SysState) (env : Env) : SysState × Option Exn :=
  let st1 := { st with bboxAttempts := st.bboxAttempts + 1 }
  match env.bboxResult with
  | none => (st1, some .oxBboxError)
  | some raw =>
    let r := annotateGraph raw
    let st2 := { st1 with graph := some r.1 }
    match r.2 with
    | some ex => (st2, some ex)
    | none => ({ st2 with cacheFile := .holds r.1 }, none)

/-- Translation of `download_and_cache_graph` (`app.py` lines 53-92): attempt the named
place download, annotate every edge, persist to the cache file; on any
exception fall back to `download_using_bbox`. -/
def download_and_cache_graph (st : SysState) (env : Env) : SysState × Option Exn :=
  let st1 := { st with placeAttempts := st.placeAttempts + 1 }
  match env.placeResult with
  | none => download_using_bbox st1 env
  | some raw =>
    let r := annotateGraph raw
    let st2 := { st1 with graph := some r.1 }
    match r.2 with
    | some _ => download_using_bbox st2 env
    | none => ({ st2 with cacheFile := .holds r.1 }, none)

/-- Translation of `load_graph` (`app.py` lines 28-44), the body under `self.graph_lock`
(the lock serializes refreshes; each call is modelled as one atomic
transition): when `should_update_graph` holds, load from the cache file if
it exists, else download; on success stamp `last_update`; on an exception
download only when no truthy graph is in memory (without restamping
`last_update`). -/
def load_graph (st : SysState) (env : Env) : SysState × Option Exn :=
  if should_update_graph st env.now then
    match st.cacheFile with
    | .holds g => ({ st with graph := some g, lastUpdate := some env.now }, none)
    | .corrupt =>
      if graphTruthy st.graph then (st, none)
      else download_and_cache_graph st env
    | .absent =>
      match download_and_cache_graph st env with
      | (st2, none) => ({ st2 with lastUpdate := some env.now }, none)
      | (st2, some _) =>
        if graphTruthy st2.graph then (st2, none)
        else download_and_cache_graph st2 env
  else (st, none)

/-- An edge as the spec requires it after a refresh: numeric speed and the
travel-time formula over its own (unchanged) length. -/
def EdgeNormalized (e : EdgeAttrs) : Prop :=
  ∃ q : ℚ, e.maxspeed = some (.num q) ∧
    e.travel_time = some (e.length / (q * 1000 / 3600))

/-- Every edge of the graph is normalized. -/
def GraphNormalized (g : MultiGraph) : Prop :=
  ∀ x ∈ g.adj, ∀ e ∈ x.2, EdgeNormalized e

/-- Spec-side description of what annotation does to one edge: length is
kept, the speed is selected by `specSpeed`, and the travel time is
`length / (speed * 1000 / 3600)`. -/
def edgeSpecNorm (d e : EdgeAttrs) : Prop :=
  e.length = d.length ∧
    ∃ q : ℚ, specSpeed d.maxspeed = some q ∧
      e.maxspeed = some (.num q) ∧
      e.travel_time = some (d.length / (q * 1000 / 3600))

/-- Spec-side description of annotation of the whole graph: nodes kept,
every edge related to its original by `edgeSpecNorm`. -/
def graphSpecNorm (g g2 : MultiGraph) : Prop :=
  g2.nodeAttrs = g.nodeAttrs ∧
    List.Forall₂
      (fun x y => x.1 = y.1 ∧ List.Forall₂ edgeSpecNorm x.2 y.2)
      g.adj g2.adj

/-- A one-node graph used in concrete scenarios. -/
def gOneNode : MultiGraph := ⟨[(1, ⟨0, 0⟩)], []⟩

/-- A state with a stale but present in-memory graph and a cache file
that exists but fails to unpickle. -/
def stStaleCorrupt : SysState := ⟨some gOneNode, some 0, .corrupt, [], 0, 0, 0⟩

/-- An environment where both downloads would succeed, 100000 seconds
after the recorded refresh. -/
def envFresh : Env := ⟨some gOneNode, some gOneNode, 100000⟩

/-- Lookup in the memoization table of `get_nearest_node`, keyed by the
exact `(lat, lng)` pair. -/
def cacheLookup (c : List ((ℚ × ℚ) × Node)) (k : ℚ × ℚ) : Option Node :=
  (c.find? (fun e => decide (e.1 = k))).map (fun e => e.2)

/-- On a hit, `functools.lru_cache` moves the entry to most-recently-used
position. -/
def cacheTouch (c : List ((ℚ × ℚ) × Node)) (k : ℚ × ℚ) :
    List ((ℚ × ℚ) × Node) :=
  match c.find? (fun e => decide (e.1 = k)) with
  | none => c
  | some e => e :: c.eraseP (fun x => decide (x.1 = k))

/-- On a miss, the new entry becomes most recent and the least recent is
evicted beyond the `maxsize=1000` capacity. -/
def cacheInsert (c : List ((ℚ × ℚ) × Node)) (k : ℚ × ℚ) (n : Node) :
    List ((ℚ × ℚ) × Node) :=
  ((k, n) :: c).take 1000

/-- Squared planar distance from a node to a query point. -/
def sqDist (a : NodeAttrs) (lng lat : ℚ) : ℚ :=
  (a.x - lng) ^ 2 + (a.y - lat) ^ 2

/-- Fold keeping the node closest to the query point (first wins ties). -/
def nearestFold (lng lat : ℚ) :
    Node × NodeAttrs → List (Node × NodeAttrs) → Node × NodeAttrs
  | best, [] => best
  | best, c :: rest =>
    nearestFold lng lat
      (if sqDist c.2 lng lat < sqDist best.2 lng lat then c else best) rest

/-- Model of `ox.nearest_nodes(G, X, Y)` for a scalar query: the graph
node minimizing the distance to the query point; raises (modelled as
`none`) on a graph with no nodes. -/
def nearest_nodes (g : MultiGraph) (lng lat : ℚ) : Option Node :=
  match g.nodeAttrs with
  | [] => none
  | e :: rest => some (nearestFold lng lat e rest).1

/-- Translation of `get_nearest_node` (`app.py` lines 132-135): an `lru_cache`-memoized
wrapper around `ox.nearest_nodes(self.graph, lng, lat)`.  A raised
exception (graph `None` or empty) is not cached.  `nnCalls` counts the
underlying `ox.nearest_nodes` invocations. -/
def get_nearest_node (st : SysState) (lat lng : ℚ) :
    Except Exn Node × SysState :=
  match cacheLookup st.nnCache (lat, lng) with
  | some n => (.ok n, { st with nnCache := cacheTouch st.nnCache (lat, lng) })
  | none =>
    match st.graph with
    | none => (.error .attributeError, { st with nnCalls := st.nnCalls + 1 })
    | some g =>
      match nearest_nodes g lng lat with
      | none => (.error .valueError, { st with nnCalls := st.nnCalls + 1 })
      | some n =>
        (.ok n, { st with nnCache := cacheInsert st.nnCache (lat, lng) n,
                          nnCalls := st.nnCalls + 1 })

/-- Successors of `u`: nodes reachable by one directed edge. -/
def successors (g : MultiGraph) (u : Node) : List Node :=
  ((g.adj.map (fun x => x.1.2)).dedup).filter (fun v => edgeExists g u v)

/-- All duplicate-free edge paths from `u` ending at `t`, avoiding `vis`,
with at most `f` edges: the search space of the library shortest-path
routine. -/
def simplePathsAux (g : MultiGraph) (t : Node) :
    ℕ → Node → List Node → List (List Node)
  | 0, u, _ => if u = t then [[t]] else []
  | f + 1, u, vis =>
    if u = t then [[t]]
    else
      ((successors g u).filter (fun v => decide (v ∉ u :: vis))).flatMap
        (fun v => (simplePathsAux g t f v (u :: vis)).map (fun p => u :: p))

/-- All simple paths from `s` to `t` (fuel `|nodes|` suffices: a
duplicate-free path over the graph's nodes has at most `|nodes| - 1`
edges). -/
def pathsBetween (g : MultiGraph) (s t : Node) : List (List Node) :=
  simplePathsAux g t g.nodeAttrs.length s []

/-- The effective weight networkx gives a multigraph edge `u → v` under
`weight="travel_time"`: the minimum over parallel edges of the attribute,
defaulting to 1 where the attribute is missing. -/
def nxWeight (g : MultiGraph) (u v : Node) : ℚ :=
  match (edgesBetween g u v).map (fun e => e.travel_time.getD 1) with
  | [] => 0
  | w :: ws => ws.foldl min w

/-- Total weight of a node path. -/
def pathWeight (g : MultiGraph) : List Node → ℚ
  | [] => 0
  | [_] => 0
  | u :: v :: rest => nxWeight g u v + pathWeight g (v :: rest)

/-- First element of minimal weight in a list of candidate paths. -/
def selectMinBy (w : List Node → ℚ) : List (List Node) → Option (List Node)
  | [] => none
  | p :: ps =>
    some (ps.foldl (fun best q => if w q < w best then q else best) p)

/-- Model of `nx.shortest_path(G, s, t, weight="travel_time")`: raises
`NodeNotFound` when either endpoint is not a node, raises
`NetworkXNoPath` when no path exists, and otherwise returns a path of
minimal total weight. -/
def nx_shortest_path (g : MultiGraph) (s t : Node) : Except Exn (List Node) :=
  if s ∈ nodeIds g then
    if t ∈ nodeIds g then
      match selectMinBy (pathWeight g) (pathsBetween g s t) with
      | some p => .ok p
      | none => .error .noPath
    else .error .nodeNotFound
  else .error .nodeNotFound

/-- Whether consecutive nodes of the list are all joined by an edge. -/
def isPathList (g : MultiGraph) : List Node → Bool
  | [] => true
  | [_] => true
  | u :: v :: rest => edgeExists g u v && isPathList g (v :: rest)

/-- A duplicate-free edge path from `s` to `t`. -/
def SimplePath (g : MultiGraph) (s t : Node) (p : List Node) : Prop :=
  p.head? = some s ∧ p.getLast? = some t ∧ isPathList g p = true ∧ p.Nodup

instance (g : MultiGraph) (s t : Node) (p : List Node) :
    Decidable (SimplePath g s t p) := by
  unfold SimplePath
  infer_instance

/-- Well-formedness of a networkx graph: edge endpoints are nodes. -/
def GraphWf (g : MultiGraph) : Prop :=
  ∀ x ∈ g.adj, x.1.1 ∈ nodeIds g ∧ x.1.2 ∈ nodeIds g

instance (g : MultiGraph) : Decidable (GraphWf g) := by
  unfold GraphWf
  infer_instance

/-- Translation of `find_shortest_path` (`app.py` lines 137-149): resolve both
coordinate tuples through the memoized nearest-node lookup (unpacking a
tuple of the wrong arity raises `TypeError`), run the library shortest
path on the current graph, and map the two no-route exceptions to the
`None` signal; any other exception propagates. -/
def find_shortest_path (st : SysState) (origin destination : List ℚ) :
    Except Exn (Option (List Node)) × SysState :=
  match origin with
  | [olat, olng] =>
    (match get_nearest_node st olat olng with
     | (.error e, st1) => (.error e, st1)
     | (.ok originNode, st1) =>
       match destination with
       | [dlat, dlng] =>
         (match get_nearest_node st1 dlat dlng with
          | (.error e, st2) => (.error e, st2)
          | (.ok destNode, st2) =>
            match st2.graph with
            | none => (.error .typeError, st2)
            | some g =>
              match nx_shortest_path g originNode destNode with
              | .ok p => (.ok (some p), st2)
              | .error .noPath => (.ok none, st2)
              | .error .nodeNotFound => (.ok none, st2)
              | .error e => (.error e, st2))
       | _ => (.error .typeError, st1))
  | _ => (.error .typeError, st)

/-- A parsed JSON request body: a dict whose values are arrays of
numbers (the shape `POST /shortest-path` consumes). -/
structure ReqBody where
  entries : List (String × List ℚ)

/-- Model of `data[k]`: dict access raising `KeyError` on a missing key. -/
def dictGet (b : ReqBody) (k : String) : Except Exn (List ℚ) :=
  match b.entries.find? (fun e => decide (e.1 = k)) with
  | some e => .ok e.2
  | none => .error (.keyError k)

/-- The coordinate list `[(G.nodes[node]["y"], G.nodes[node]["x"]) for
node in path]`; fails on the first node without attributes. -/
def pathCoords (g : MultiGraph) : List Node → Option (List (ℚ × ℚ))
  | [] => some []
  | n :: rest =>
    match lookupNode g n with
    | none => none
    | some a =>
      match pathCoords g rest with
      | none => none
      | some cs => some ((a.y, a.x) :: cs)

/-- Translation of `create_route_map` (`app.py` lines 151-179): `None` for a falsy path;
otherwise resolve each path node to `(lat, lng)` and build the folium map
centered at `origin[0], origin[1]` (an index error or missing node
attribute is caught and yields the no-map signal).  The rendered HTML is
not inspected by any response, so success is modelled by returning the
coordinate list. -/
def create_route_map (st : SysState) (origin : List ℚ) (path : List Node) :
    Option (List (ℚ × ℚ)) :=
  match path with
  | [] => none
  | _ :: _ =>
    match st.graph with
    | none => none
    | some g =>
      match pathCoords g path with
      | none => none
      | some coords =>
        if 2 ≤ origin.length then some coords else none

/-- Model of `G[u][v][0]`: the parallel edge keyed 0, raising `KeyError` when the
pair or the key is absent (modelled as `none`). -/
def edge0 (g : MultiGraph) (u v : Node) : Option EdgeAttrs :=
  match edgesBetween g u v with
  | [] => none
  | e :: _ => some e

/-- Access `graph[path[i]][path[i + 1]][0]` of the stats loop. -/
def edge0At (g : MultiGraph) (path : List Node) (i : ℕ) : Option EdgeAttrs :=
  edge0 g (path.getD i 0) (path.getD (i + 1) 0)

/-- One step of the `total_distance` sum. -/
def stepLen (g : MultiGraph) (path : List Node) (acc : Except Exn ℚ)
    (i : ℕ) : Except Exn ℚ :=
  match acc with
  | .error e => .error e
  | .ok a =>
    match edge0At g path i with
    | none => .error (.keyError "edge")
    | some e => .ok (a + e.length)

/-- One step of the `estimated_time` sum. -/
def stepTT (g : MultiGraph) (path : List Node) (acc : Except Exn ℚ)
    (i : ℕ) : Except Exn ℚ :=
  match acc with
  | .error e => .error e
  | .ok a =>
    match edge0At g path i with
    | none => .error (.keyError "edge")
    | some e =>
      match e.travel_time with
      | none => .error (.keyError "travel_time")
      | some tt => .ok (a + tt)

/-- Translation of `sum(float(graph[path[i]][path[i+1]][0]["length"]) for i in
range(len(path) - 1))`. -/
def statSumLen (g : MultiGraph) (path : List Node) : Except Exn ℚ :=
  (List.range (path.length - 1)).foldl (stepLen g path) (.ok 0)

/-- Translation of `sum(float(graph[path[i]][path[i+1]][0]["travel_time"]) for i in
range(len(path) - 1))`. -/
def statSumTT (g : MultiGraph) (path : List Node) : Except Exn ℚ :=
  (List.range (path.length - 1)).foldl (stepTT g path) (.ok 0)

/-- Spec-side sum of `length` of the index-0 parallel edge over a list of
node pairs. -/
def specPairsLen (g : MultiGraph) : List (Node × Node) → Option ℚ
  | [] => some 0
  | uv :: prs =>
    match edge0 g uv.1 uv.2 with
    | none => none
    | some e => (specPairsLen g prs).map (fun s => e.length + s)

/-- Spec-side sum of `travel_time` of the index-0 parallel edge over a
list of node pairs. -/
def specPairsTT (g : MultiGraph) : List (Node × Node) → Option ℚ
  | [] => some 0
  | uv :: prs =>
    match edge0 g uv.1 uv.2 with
    | none => none
    | some e =>
      match e.travel_time with
      | none => none
      | some tt => (specPairsTT g prs).map (fun s => tt + s)

/-- The spec's `total_distance`: sum of edge lengths over consecutive
node pairs of the path. -/
def specSumLen (g : MultiGraph) (path : List Node) : Option ℚ :=
  specPairsLen g (path.zip path.tail)

/-- The spec's `estimated_time`: sum of edge travel times over
consecutive node pairs of the path. -/
def specSumTT (g : MultiGraph) (path : List Node) : Option ℚ :=
  specPairsTT g (path.zip path.tail)

/-- An HTTP response of the handler: a 200 payload (path coordinates and
the two statistics) or an error status with its message. -/
inductive Resp where
  | ok (path : List (ℚ × ℚ)) (total_distance estimated_time : ℚ)
  | err (status : ℕ) (msg : String)
deriving DecidableEq

/-- The body of the `try` block of the `/shortest-path` handler
(`app.py` lines 188-217): parse the two coordinate arrays, find the
path, 404 on a falsy path, render the map (500 on a falsy map), then
compute the two sums.  `Except.error` models an exception escaping to
the handler's `except` clause. -/
def shortest_path_core (st : SysState) (body : ReqBody) :
    Except Exn Resp × SysState :=
  match dictGet body "origin" with
  | .error e => (.error e, st)
  | .ok origin =>
    match dictGet body "destination" with
    | .error e => (.error e, st)
    | .ok destination =>
      match find_shortest_path st origin destination with
      | (.error e, st1) => (.error e, st1)
      | (.ok pathOpt, st1) =>
        match pathOpt with
        | none => (.ok (.err 404 "No path found between the given points"), st1)
        | some [] =>
          (.ok (.err 404 "No path found between the given points"), st1)
        | some path =>
          match create_route_map st1 origin path with
          | none => (.ok (.err 500 "Error creating map visualization"), st1)
          | some coords =>
            match st1.graph with
            | none => (.error .typeError, st1)
            | some g =>
              match statSumLen g path with
              | .error e => (.error e, st1)
              | .ok dist =>
                match statSumTT g path with
                | .error e => (.error e, st1)
                | .ok time => (.ok (.ok coords dist time), st1)

/-- The `/shortest-path` handler (`app.py` lines 186-220): any exception
of the body is caught at the boundary and surfaced as a 500 response
carrying `str(e)`. -/
def shortest_path_handler (st : SysState) (body : ReqBody) :
    Resp × SysState :=
  match shortest_path_core st body with
  | (.ok r, st1) => (r, st1)
  | (.error e, st1) => (.err 500 (exnMsg e), st1)

/-- The `total_distance` step, re-indexed over node pairs. -/
def pairStepLen (g : MultiGraph) (acc : Except Exn ℚ) (uv : Node × Node) :
    Except Exn ℚ :=
  match acc with
  | .error e => .error e
  | .ok a =>
    match edge0 g uv.1 uv.2 with
    | none => .error (.keyError "edge")
    | some e => .ok (a + e.length)

/-- The `estimated_time` step, re-indexed over node pairs. -/
def pairStepTT (g : MultiGraph) (acc : Except Exn ℚ) (uv : Node × Node) :
    Except Exn ℚ :=
  match acc with
  | .error e => .error e
  | .ok a =>
    match edge0 g uv.1 uv.2 with
    | none => .error (.keyError "edge")
    | some e =>
      match e.travel_time with
      | none => .error (.keyError "travel_time")
      | some tt => .ok (a + tt)

/-- A small annotated road graph: two nodes and one edge of length 100 m
at 40 km/h (travel time 9 s). -/
def gW : MultiGraph :=
  ⟨[(1, ⟨0, 0⟩), (2, ⟨3, 4⟩)], [((1, 2), [⟨some (.num 40), 100, some 9⟩])]⟩

/-- The same graph before annotation (no travel time yet). -/
def gRaw : MultiGraph :=
  ⟨[(1, ⟨0, 0⟩), (2, ⟨3, 4⟩)], [((1, 2), [⟨some (.num 40), 100, none⟩])]⟩

/-- Two isolated nodes: no path exists between them. -/
def gDisc : MultiGraph := ⟨[(1, ⟨0, 0⟩), (2, ⟨3, 4⟩)], []⟩

/-- A fresh service state with nothing loaded. -/
def stEmpty : SysState := ⟨none, none, .absent, [], 0, 0, 0⟩

/-- A service state holding the annotated graph, with a cold cache. -/
def stW : SysState := ⟨some gW, none, .absent, [], 0, 0, 0⟩

/-- The state after a successful place download from `stEmpty`. -/
def stDl : SysState := ⟨some gW, none, .holds gW, [], 0, 1, 0⟩

/-- An environment whose place download yields the raw graph. -/
def envPlace : Env := ⟨some gRaw, none, 0⟩

/-- An environment where both downloads raise. -/
def envFail : Env := ⟨none, none, 0⟩

/-- No graph in memory, but the cache file holds one. -/
def stHolds : SysState := ⟨none, none, .holds gW, [], 0, 0, 0⟩

/-- A service state over the disconnected graph. -/
def stDisc : SysState := ⟨some gDisc, none, .absent, [], 0, 0, 0⟩

/-- State `stDisc` after resolving the origin coordinate. -/
def stDisc1 : SysState :=
  ⟨some gDisc, none, .absent, [((-1, -1), 1)], 1, 0, 0⟩

/-- State `stDisc` after resolving both coordinates. -/
def stDisc2 : SysState :=
  ⟨some gDisc, none, .absent, [((10, 10), 2), ((-1, -1), 1)], 2, 0, 0⟩

/-- State `stW` after both lookups of a routed request. -/
def stWOut : SysState :=
  ⟨some gW, none, .absent, [((10, 10), 2), ((-1, -1), 1)], 2, 0, 0⟩

/-- State `stW` after one nearest-node lookup at `(10, 10)`. -/
def stW9b : SysState := ⟨some gW, none, .absent, [((10, 10), 2)], 1, 0, 0⟩

/-- A request from near node 1 to near node 2. -/
def bodyOD : ReqBody := ⟨[("origin", [-1, -1]), ("destination", [10, 10])]⟩

/-- A request whose origin and destination coincide. -/
def bodySame : ReqBody := ⟨[("origin", [10, 10]), ("destination", [10, 10])]⟩

/-- A request body missing the `origin` key. -/
def bodyNoOrigin : ReqBody := ⟨[("destination", [1, 2])]⟩

theorem annotateFinish_ok {d e : EdgeAttrs} {q : ℚ}
    (h : annotateFinish d q = (e, none)) :
    e.maxspeed = d.maxspeed ∧ e.length = d.length ∧
      e.travel_time = some (d.length / (q * 1000 / 3600)) := by
  unfold annotateFinish at h
  split at h
  · exact absurd (congrArg Prod.snd h) (by simp)
  · injection h with h1 h2
    subst h1
    exact ⟨rfl, rfl, rfl⟩

theorem annotateEdge_ok {d e : EdgeAttrs} (h : annotateEdge d = (e, none)) :
    ∃ q : ℚ, specSpeed d.maxspeed = some q ∧
      e.maxspeed = some (.num q) ∧
      e.length = d.length ∧
      e.travel_time = some (d.length / (q * 1000 / 3600)) := by
  cases hm : d.maxspeed with
  | none =>
    simp only [annotateEdge, hm, Option.getD] at h
    obtain ⟨h1, h2, h3⟩ := annotateFinish_ok h
    exact ⟨30, rfl, by simpa using h1, h2, h3⟩
  | some v =>
    cases v with
    | num q =>
      simp only [annotateEdge, hm, Option.getD] at h
      obtain ⟨h1, h2, h3⟩ := annotateFinish_ok h
      exact ⟨q, rfl, by simpa using h1, h2, h3⟩
    | vlist l =>
      cases l with
      | nil => simp [annotateEdge, hm, Option.getD] at h
      | cons hd tl =>
        simp only [annotateEdge, hm, Option.getD] at h
        cases hf : pyFloatScalar hd with
        | none => rw [hf] at h; exact absurd (congrArg Prod.snd h) (by simp)
        | some q =>
          rw [hf] at h
          obtain ⟨h1, h2, h3⟩ := annotateFinish_ok h
          exact ⟨q, by simp [specSpeed, hf], by simpa using h1, h2, h3⟩
    | str s =>
      simp only [annotateEdge, hm, Option.getD] at h
      cases ht : pyTokens s with
      | nil => rw [ht] at h; exact absurd (congrArg Prod.snd h) (by simp)
      | cons tok rest =>
        rw [ht] at h
        simp only at h
        cases hp : parseFloat tok with
        | none => rw [hp] at h; exact absurd (congrArg Prod.snd h) (by simp)
        | some q =>
          rw [hp] at h
          obtain ⟨h1, h2, h3⟩ := annotateFinish_ok h
          exact ⟨q, by simp [specSpeed, ht, hp], by simpa using h1, h2, h3⟩

theorem digitVal0 : digitVal '0' = 0 := by decide

theorem digitVal1 : digitVal '1' = 1 := by decide

theorem digitVal2 : digitVal '2' = 2 := by decide

theorem digitVal3 : digitVal '3' = 3 := by decide

theorem digitVal4 : digitVal '4' = 4 := by decide

theorem digitVal5 : digitVal '5' = 5 := by decide

theorem digitVal6 : digitVal '6' = 6 := by decide

theorem digitVal7 : digitVal '7' = 7 := by decide

theorem digitVal8 : digitVal '8' = 8 := by decide

theorem digitVal9 : digitVal '9' = 9 := by decide

example : parseFloat ['4', '0'] = some 40 := by
  norm_num +decide [parseFloat, pyStrip, dropWs, splitDot, digitsToNat,
    digitVal0, digitVal1, digitVal2, digitVal3, digitVal4, digitVal5,
    digitVal6, digitVal7, digitVal8, digitVal9]

example : parseFloat ['4', '0', '.', '5'] = some (81 / 2) := by
  norm_num +decide [parseFloat, pyStrip, dropWs, splitDot, digitsToNat,
    digitVal0, digitVal1, digitVal2, digitVal3, digitVal4, digitVal5,
    digitVal6, digitVal7, digitVal8, digitVal9]

example : pyTokens ['4', '0', ' ', 'm', 'p', 'h'] = [['4', '0'], ['m', 'p', 'h']] := by decide

example : parseFloat ['4', '0', ' ', 'm', 'p', 'h'] = none := by
  norm_num +decide [parseFloat, pyStrip, dropWs, splitDot, digitsToNat,
    digitVal0, digitVal1, digitVal2, digitVal3, digitVal4, digitVal5,
    digitVal6, digitVal7, digitVal8, digitVal9]

example :
    annotateEdge ⟨some (.str ['4', '0', ' ', 'm', 'p', 'h']), 100, none⟩ =
      (⟨some (.num 40), 100, some 9⟩, none) := by
  norm_num +decide [annotateEdge, annotateFinish, pyTokens, pyTokensAux, parseFloat,
    pyStrip, dropWs, splitDot, digitsToNat,
    digitVal0, digitVal1, digitVal2, digitVal3, digitVal4, digitVal5,
    digitVal6, digitVal7, digitVal8, digitVal9]

theorem forallTwo_mem_right {α β : Type _} {r : α → β → Prop} {l1 : List α}
    {l2 : List β} (h : List.Forall₂ r l1 l2) {y : β} (hy : y ∈ l2) :
    ∃ x ∈ l1, r x y := by
  induction h with
  | nil => cases hy
  | cons hr _ ih =>
    rcases List.mem_cons.mp hy with h1 | h2
    · exact ⟨_, List.mem_cons_self _ _, h1 ▸ hr⟩
    · obtain ⟨x, hx, hxy⟩ := ih h2
      exact ⟨x, List.mem_cons_of_mem _ hx, hxy⟩

theorem annotateEdges_forall {l l2 : List EdgeAttrs}
    (h : annotateEdges l = (l2, none)) :
    List.Forall₂ (fun d e => annotateEdge d = (e, none)) l l2 := by
  induction l generalizing l2 with
  | nil =>
    simp only [annotateEdges] at h
    injection h with h1 h2
    subst h1
    exact List.Forall₂.nil
  | cons d rest ih =>
    simp only [annotateEdges] at h
    cases ha : annotateEdge d with
    | mk e ex =>
      rw [ha] at h
      cases ex with
      | some e0 => exact absurd (congrArg Prod.snd h) (by simp)
      | none =>
        injection h with h1 h2
        have hrest : annotateEdges rest = ((annotateEdges rest).1, none) := by
          rw [← h2]
        subst h1
        exact List.Forall₂.cons ha (ih hrest)

theorem annotateAdj_forall {a a2 : List ((Node × Node) × List EdgeAttrs)}
    (h : annotateAdj a = (a2, none)) :
    List.Forall₂
      (fun x y => x.1 = y.1 ∧ annotateEdges x.2 = (y.2, none)) a a2 := by
  induction a generalizing a2 with
  | nil =>
    simp only [annotateAdj] at h
    injection h with h1 h2
    subst h1
    exact List.Forall₂.nil
  | cons x rest ih =>
    cases x with
    | mk k es =>
      simp only [annotateAdj] at h
      cases ha : annotateEdges es with
      | mk es2 ex =>
        rw [ha] at h
        cases ex with
        | some e0 => exact absurd (congrArg Prod.snd h) (by simp)
        | none =>
          injection h with h1 h2
          have hrest : annotateAdj rest = ((annotateAdj rest).1, none) := by
            rw [← h2]
          subst h1
          exact List.Forall₂.cons ⟨rfl, ha⟩ (ih hrest)

theorem annotateGraph_spec {g g2 : MultiGraph}
    (h : annotateGraph g = (g2, none)) : graphSpecNorm g g2 := by
  have hadj : annotateAdj g.adj = ((annotateAdj g.adj).1, none) := by
    have := congrArg Prod.snd h
    simp only [annotateGraph] at this ⊢
    rw [← this]
  have hg2 : g2 = ⟨g.nodeAttrs, (annotateAdj g.adj).1⟩ := by
    have := congrArg Prod.fst h
    simp only [annotateGraph] at this
    rw [← this]
  subst hg2
  refine ⟨rfl, ?_⟩
  refine (annotateAdj_forall hadj).imp ?_
  rintro x y ⟨hk, hes⟩
  refine ⟨hk, (annotateEdges_forall hes).imp ?_⟩
  intro d e hde
  obtain ⟨q, hq, hm, hl, ht⟩ := annotateEdge_ok hde
  exact ⟨hl, q, hq, hm, ht⟩

theorem graphSpecNorm_normalized {g g2 : MultiGraph}
    (h : graphSpecNorm g g2) : GraphNormalized g2 := by
  intro x hx e he
  obtain ⟨x0, _, _, hes⟩ := forallTwo_mem_right h.2 hx
  obtain ⟨d, _, hl, q, _, hm, ht⟩ := forallTwo_mem_right hes he
  exact ⟨q, hm, by rw [ht, hl]⟩

theorem download_using_bbox_ok {st st2 : SysState} {env : Env}
    (h : download_using_bbox st env = (st2, none)) :
    ∃ raw : MultiGraph, env.bboxResult = some raw ∧
      st2.graph = some (annotateGraph raw).1 ∧
      st2.cacheFile = .holds (annotateGraph raw).1 ∧
      annotateGraph raw = ((annotateGraph raw).1, none) := by
  cases hb : env.bboxResult with
  | none =>
    simp only [download_using_bbox, hb] at h
    exact absurd (congrArg Prod.snd h) (by simp)
  | some raw =>
    simp only [download_using_bbox, hb] at h
    cases hr2 : (annotateGraph raw).2 with
    | some ex =>
      rw [hr2] at h
      exact absurd (congrArg Prod.snd h) (by simp)
    | none =>
      rw [hr2] at h
      have h1 := congrArg Prod.fst h
      simp only at h1
      refine ⟨raw, rfl, by rw [← h1], by rw [← h1], by rw [← hr2]⟩

theorem download_ok_graph {st st2 : SysState} {env : Env}
    (h : download_and_cache_graph st env = (st2, none)) :
    ∃ raw : MultiGraph,
      (env.placeResult = some raw ∨ env.bboxResult = some raw) ∧
      st2.graph = some (annotateGraph raw).1 ∧
      st2.cacheFile = .holds (annotateGraph raw).1 ∧
      annotateGraph raw = ((annotateGraph raw).1, none) := by
  cases hp : env.placeResult with
  | none =>
    simp only [download_and_cache_graph, hp] at h
    obtain ⟨raw, hb, hg, hcf, ha⟩ := download_using_bbox_ok h
    exact ⟨raw, Or.inr hb, hg, hcf, ha⟩
  | some raw =>
    simp only [download_and_cache_graph, hp] at h
    cases hr2 : (annotateGraph raw).2 with
    | some ex =>
      rw [hr2] at h
      obtain ⟨raw2, hb, hg, hcf, ha⟩ := download_using_bbox_ok h
      exact ⟨raw2, Or.inr hb, hg, hcf, ha⟩
    | none =>
      rw [hr2] at h
      have h1 := congrArg Prod.fst h
      simp only at h1
      refine ⟨raw, Or.inl rfl, by rw [← h1], by rw [← h1], by rw [← hr2]⟩

/-- C1: after a successful download (by either method), the stored graph
is the annotated download: for every edge, the speed is normalized as the
spec says (absent speed becomes the default 30; a list contributes its
first element; a string contributes its leading numeric token), and
`travel_time` equals `length / (speed * 1000 / 3600)`. -/
theorem download_edges_normalized (st st2 : SysState) (env : Env)
    (h : download_and_cache_graph st env = (st2, none)) :
    ∃ raw : MultiGraph,
      (env.placeResult = some raw ∨ env.bboxResult = some raw) ∧
      st2.graph = some (annotateGraph raw).1 ∧
      graphSpecNorm raw (annotateGraph raw).1 := by
  obtain ⟨raw, hsrc, hg, _, ha⟩ := download_ok_graph h
  exact ⟨raw, hsrc, hg, annotateGraph_spec ha⟩

/-- C5: when the named-place download raises and the bounding-box
fallback also raises, `download_and_cache_graph` attempts the fallback
(the bbox attempt counter increases), re-raises the fallback's
exception, and leaves the in-memory graph and the cache file exactly as
they were; moreover, starting with no graph and no cache file, the
exception propagates out of `load_graph` and the graph is still absent. -/
theorem download_failure_propagates (st : SysState) (env : Env)
    (hp : env.placeResult = none) (hb : env.bboxResult = none) :
    download_and_cache_graph st env =
      ({ st with placeAttempts := st.placeAttempts + 1,
                 bboxAttempts := st.bboxAttempts + 1 }, some .oxBboxError) ∧
    (st.graph = none → st.cacheFile = .absent →
      (load_graph st env).2 = some .oxBboxError ∧
      (load_graph st env).1.graph = none ∧
      (load_graph st env).1.cacheFile = .absent) := by
  have hdl : ∀ s : SysState, download_and_cache_graph s env =
      ({ s with placeAttempts := s.placeAttempts + 1,
                bboxAttempts := s.bboxAttempts + 1 }, some .oxBboxError) := by
    intro s
    simp only [download_and_cache_graph, download_using_bbox, hp, hb]
  refine ⟨hdl st, ?_⟩
  intro hg hc
  have hsu : should_update_graph st env.now = true := by
    simp [should_update_graph, graphTruthy, hg]
  have hgt : graphTruthy st.graph = false := by simp [graphTruthy, hg]
  simp only [load_graph, hsu, if_true, hc, hdl, hgt, Bool.false_eq_true,
    if_false]
  simp [hg]

/-- C4 counterexample: with a stale but nonempty in-memory graph and a
cache file that exists but fails to load, the refresh condition holds and
the cache-file load fails, yet `load_graph` attempts no download (both
attempt counters stay zero) and leaves the state unchanged — against the
claim that on a load failure a download is attempted. -/
theorem load_graph_keeps_stale_graph_on_corrupt_cache :
    should_update_graph stStaleCorrupt envFresh.now = true ∧
    stStaleCorrupt.cacheFile = .corrupt ∧
    load_graph stStaleCorrupt envFresh = (stStaleCorrupt, none) ∧
    (load_graph stStaleCorrupt envFresh).1.placeAttempts = 0 ∧
    (load_graph stStaleCorrupt envFresh).1.bboxAttempts = 0 ∧
    (load_graph stStaleCorrupt envFresh).1.graph = some gOneNode := by
  norm_num [should_update_graph, graphTruthy, graphLen, load_graph,
    stStaleCorrupt, envFresh, gOneNode]

/-- C4 (amended): under the lock, `load_graph` reloads only when no
truthy graph is loaded, no refresh timestamp is recorded, or the age
exceeds the refresh interval; it then loads from the cache file when that
file exists and unpickles; on the file's absence it downloads; on a load
failure it downloads only when no truthy graph is in memory (otherwise
the old graph is kept); a successful download leaves every edge
annotated with a numeric speed and the derived travel time, and persists
exactly the stored graph to the cache file. -/
theorem load_graph_spec (st : SysState) (env : Env) :
    (should_update_graph st env.now = false → load_graph st env = (st, none)) ∧
    (∀ g, should_update_graph st env.now = true → st.cacheFile = .holds g →
      load_graph st env =
        ({ st with graph := some g, lastUpdate := some env.now }, none)) ∧
    (should_update_graph st env.now = true → st.cacheFile = .corrupt →
      graphTruthy st.graph = true → load_graph st env = (st, none)) ∧
    (should_update_graph st env.now = true → st.cacheFile = .corrupt →
      graphTruthy st.graph = false →
      load_graph st env = download_and_cache_graph st env) ∧
    (∀ st2, should_update_graph st env.now = true → st.cacheFile = .absent →
      download_and_cache_graph st env = (st2, none) →
      load_graph st env = ({ st2 with lastUpdate := some env.now }, none)) ∧
    (∀ st2, download_and_cache_graph st env = (st2, none) →
      ∃ g2, st2.graph = some g2 ∧ st2.cacheFile = .holds g2 ∧
        GraphNormalized g2) := by
  refine ⟨?_, ?_, ?_, ?_, ?_, ?_⟩
  · intro h
    simp [load_graph, h]
  · intro g h1 h2
    simp [load_graph, h1, h2]
  · intro h1 h2 h3
    simp [load_graph, h1, h2, h3]
  · intro h1 h2 h3
    simp [load_graph, h1, h2, h3]
  · intro st2 h1 h2 h3
    simp [load_graph, h1, h2, h3]
  · intro st2 h
    obtain ⟨raw, _, hg, hcf, ha⟩ := download_ok_graph h
    exact ⟨(annotateGraph raw).1, hg, hcf,
      graphSpecNorm_normalized (annotateGraph_spec ha)⟩

theorem cacheLookup_touch {c : List ((ℚ × ℚ) × Node)} {k : ℚ × ℚ} {n : Node}
    (h : cacheLookup c k = some n) : cacheLookup (cacheTouch c k) k = some n := by
  unfold cacheLookup at h
  cases hf : c.find? (fun e => decide (e.1 = k)) with
  | none => rw [hf] at h; cases h
  | some e =>
    rw [hf] at h
    have hk := List.find?_some hf
    simp only [cacheTouch, hf, cacheLookup, List.find?_cons, hk]
    simpa using h

theorem cacheLookup_insert (c : List ((ℚ × ℚ) × Node)) (k : ℚ × ℚ) (n : Node) :
    cacheLookup (cacheInsert c k n) k = some n := by
  simp [cacheInsert, cacheLookup, List.take_succ_cons, List.find?_cons]

/-- C9: a successful `get_nearest_node` call caches its result under the
exact `(lat, lng)` key, so an immediately repeated call returns the same
node without invoking `ox.nearest_nodes` again (`nnCalls` unchanged) —
even when the in-memory graph has been replaced by an arbitrary refresh
in between, because the cache is never invalidated. -/
theorem nearest_node_cache_hit (st st1 : SysState) (lat lng : ℚ) (n : Node)
    (h : get_nearest_node st lat lng = (.ok n, st1)) (g2 : Option MultiGraph) :
    (get_nearest_node { st1 with graph := g2 } lat lng).1 = .ok n ∧
    ((get_nearest_node { st1 with graph := g2 } lat lng).2).nnCalls =
      ({ st1 with graph := g2 } : SysState).nnCalls := by
  have hcache : cacheLookup st1.nnCache (lat, lng) = some n := by
    cases hcl : cacheLookup st.nnCache (lat, lng) with
    | some m =>
      simp only [get_nearest_node, hcl] at h
      injection h with h1 h2
      injection h1 with h1
      subst h1
      rw [← h2]
      exact cacheLookup_touch hcl
    | none =>
      cases hg : st.graph with
      | none =>
        simp only [get_nearest_node, hcl, hg] at h
        exact absurd (congrArg Prod.fst h) (by simp)
      | some g =>
        cases hn : nearest_nodes g lng lat with
        | none =>
          simp only [get_nearest_node, hcl, hg, hn] at h
          exact absurd (congrArg Prod.fst h) (by simp)
        | some m =>
          simp only [get_nearest_node, hcl, hg, hn] at h
          injection h with h1 h2
          injection h1 with h1
          subst h1
          rw [← h2]
          exact cacheLookup_insert st.nnCache (lat, lng) m
  have hcache2 : cacheLookup (SysState.nnCache { st1 with graph := g2 })
      (lat, lng) = some n := hcache
  simp [get_nearest_node, hcache2]

theorem mem_of_getLast?_some {l : List Node} {a : Node}
    (h : l.getLast? = some a) : a ∈ l := by
  induction l with
  | nil => cases h
  | cons x xs ih =>
    cases xs with
    | nil =>
      simp only [List.getLast?_singleton] at h
      injection h with h
      simp [h]
    | cons y ys =>
      rw [List.getLast?_cons_cons] at h
      exact List.mem_cons_of_mem _ (ih h)

theorem edgeExists_entry {g : MultiGraph} {u v : Node}
    (h : edgeExists g u v = true) : ∃ x ∈ g.adj, x.1 = (u, v) := by
  unfold edgeExists edgesBetween at h
  cases hf : g.adj.find? (fun e => decide (e.1 = (u, v))) with
  | none => rw [hf] at h; simp at h
  | some x =>
    have hx := List.find?_some hf
    exact ⟨x, List.mem_of_find?_eq_some hf, by simpa using hx⟩

theorem mem_successors {g : MultiGraph} {u v : Node} :
    v ∈ successors g u ↔ edgeExists g u v = true := by
  constructor
  · intro h
    exact (List.mem_filter.mp h).2
  · intro h
    obtain ⟨x, hx, hx1⟩ := edgeExists_entry h
    refine List.mem_filter.mpr ⟨List.mem_dedup.mpr ?_, h⟩
    exact List.mem_map.mpr ⟨x, hx, by rw [hx1]⟩

theorem edgeExists_right_mem {g : MultiGraph} (hwf : GraphWf g) {u v : Node}
    (h : edgeExists g u v = true) : v ∈ nodeIds g := by
  obtain ⟨x, hx, hx1⟩ := edgeExists_entry h
  have h2 := (hwf x hx).2
  rwa [hx1] at h2

theorem simplePathsAux_sound (g : MultiGraph) (t : Node) :
    ∀ (f : ℕ) (u : Node) (vis : List Node) (p : List Node), u ∉ vis →
      p ∈ simplePathsAux g t f u vis →
      p.head? = some u ∧ p.getLast? = some t ∧ isPathList g p = true ∧
        p.Nodup ∧ ∀ x ∈ p, x ∉ vis := by
  intro f
  induction f with
  | zero =>
    intro u vis p hu hp
    simp only [simplePathsAux] at hp
    split at hp
    · rename_i hut
      subst hut
      simp only [List.mem_singleton] at hp
      subst hp
      refine ⟨rfl, rfl, rfl, List.nodup_singleton _, ?_⟩
      intro x hx
      simp only [List.mem_singleton] at hx
      subst hx
      exact hu
    · simp at hp
  | succ f ih =>
    intro u vis p hu hp
    simp only [simplePathsAux] at hp
    split at hp
    · rename_i hut
      subst hut
      simp only [List.mem_singleton] at hp
      subst hp
      refine ⟨rfl, rfl, rfl, List.nodup_singleton _, ?_⟩
      intro x hx
      simp only [List.mem_singleton] at hx
      subst hx
      exact hu
    · rw [List.mem_flatMap] at hp
      obtain ⟨v, hv, hpm⟩ := hp
      rw [List.mem_map] at hpm
      obtain ⟨p1, hp1, hpe⟩ := hpm
      subst hpe
      have hvfil := List.mem_filter.mp hv
      have hvsucc := hvfil.1
      have hvnot : v ∉ u :: vis := by simpa using hvfil.2
      obtain ⟨h1, h2, h3, h4, h5⟩ := ih v (u :: vis) p1 hvnot hp1
      cases p1 with
      | nil => cases h1
      | cons v1 rest =>
        rw [List.head?_cons] at h1
        injection h1 with h1
        subst h1
        refine ⟨rfl, ?_, ?_, ?_, ?_⟩
        · rw [List.getLast?_cons_cons]
          exact h2
        · simp only [isPathList, Bool.and_eq_true]
          exact ⟨mem_successors.mp hvsucc, h3⟩
        · refine List.nodup_cons.mpr ⟨?_, h4⟩
          intro hmem
          exact (h5 u hmem) (List.mem_cons_self u vis)
        · intro x hx
          rcases List.mem_cons.mp hx with hx | hx
          · subst hx
            exact hu
          · intro hxv
            exact (h5 x hx) (List.mem_cons_of_mem _ hxv)

theorem simplePathsAux_complete (g : MultiGraph) (t : Node) :
    ∀ (p : List Node) (f : ℕ) (u : Node) (vis : List Node),
      p.head? = some u → p.getLast? = some t → isPathList g p = true →
      p.Nodup → (∀ x ∈ p, x ∉ vis) → p.length ≤ f + 1 →
      p ∈ simplePathsAux g t f u vis := by
  intro p
  induction p with
  | nil =>
    intro f u vis h1
    cases h1
  | cons x xs ih =>
    intro f u vis h1 h2 h3 h4 h5 h6
    rw [List.head?_cons] at h1
    injection h1 with h1
    subst h1
    cases xs with
    | nil =>
      simp only [List.getLast?_singleton] at h2
      injection h2 with h2
      subst h2
      cases f with
      | zero => simp [simplePathsAux]
      | succ f1 => simp [simplePathsAux]
    | cons y rest =>
      have hxt : x ≠ t := by
        intro hxeq
        rw [List.getLast?_cons_cons] at h2
        have hmem := mem_of_getLast?_some h2
        rw [← hxeq] at hmem
        exact (List.nodup_cons.mp h4).1 hmem
      cases f with
      | zero =>
        simp only [List.length_cons] at h6
        omega
      | succ f1 =>
        simp only [simplePathsAux, if_neg hxt]
        rw [List.mem_flatMap]
        simp only [isPathList, Bool.and_eq_true] at h3
        have hpath := h3
        have hyx : x ∉ y :: rest := (List.nodup_cons.mp h4).1
        refine ⟨y, ?_, ?_⟩
        · refine List.mem_filter.mpr ⟨mem_successors.mpr hpath.1, ?_⟩
          have hyne : y ≠ x := by
            intro h
            exact hyx (h ▸ List.mem_cons_self y rest)
          have hyvis : y ∉ vis := h5 y (List.mem_cons_of_mem _ (List.mem_cons_self y rest))
          simp [hyne, hyvis]
        · rw [List.mem_map]
          refine ⟨y :: rest, ?_, rfl⟩
          refine ih f1 y (x :: vis) rfl ?_ hpath.2 (List.nodup_cons.mp h4).2 ?_ ?_
          · rw [List.getLast?_cons_cons] at h2
            exact h2
          · intro z hz
            intro hzin
            rcases List.mem_cons.mp hzin with hzx | hzv
            · subst hzx
              exact hyx hz
            · exact (h5 z (List.mem_cons_of_mem _ hz)) hzv
          · simpa using h6

theorem nodup_length_le {p l : List Node} (hnd : p.Nodup)
    (hsub : ∀ x ∈ p, x ∈ l) : p.length ≤ l.length := by
  calc p.length = p.toFinset.card := (List.toFinset_card_of_nodup hnd).symm
  _ ≤ l.toFinset.card := by
      refine Finset.card_le_card ?_
      intro a ha
      exact List.mem_toFinset.mpr (hsub a (List.mem_toFinset.mp ha))
  _ ≤ l.length := List.toFinset_card_le l

theorem isPathList_mem_nodes (g : MultiGraph) (hwf : GraphWf g) :
    ∀ (p : List Node) (u : Node), isPathList g p = true → p.head? = some u →
      u ∈ nodeIds g → ∀ x ∈ p, x ∈ nodeIds g := by
  intro p
  induction p with
  | nil =>
    intro u _ _ _ x hx
    cases hx
  | cons a as ih =>
    intro u hpath hhead hu x hx
    rw [List.head?_cons] at hhead
    injection hhead with hh
    subst hh
    rcases List.mem_cons.mp hx with hx | hx
    · subst hx
      exact hu
    · cases as with
      | nil => cases hx
      | cons b bs =>
        simp only [isPathList, Bool.and_eq_true] at hpath
        exact ih b hpath.2 rfl (edgeExists_right_mem hwf hpath.1) x hx

theorem pathsBetween_sound {g : MultiGraph} {s t : Node} {p : List Node}
    (hp : p ∈ pathsBetween g s t) : SimplePath g s t p := by
  obtain ⟨h1, h2, h3, h4, _⟩ :=
    simplePathsAux_sound g t g.nodeAttrs.length s [] p (by simp) hp
  exact ⟨h1, h2, h3, h4⟩

theorem pathsBetween_complete {g : MultiGraph} {s t : Node} {p : List Node}
    (hwf : GraphWf g) (hs : s ∈ nodeIds g) (hp : SimplePath g s t p) :
    p ∈ pathsBetween g s t := by
  obtain ⟨h1, h2, h3, h4⟩ := hp
  refine simplePathsAux_complete g t p g.nodeAttrs.length s [] h1 h2 h3 h4
    (by intro x _ hx; cases hx) ?_
  have hsub := isPathList_mem_nodes g hwf p s h3 h1 hs
  have hle := nodup_length_le h4 hsub
  have hlen : (nodeIds g).length = g.nodeAttrs.length :=
    List.length_map _ _
  omega

theorem foldlMin_mem (w : List Node → ℚ) :
    ∀ (ps : List (List Node)) (b : List Node),
      ps.foldl (fun best q => if w q < w best then q else best) b ∈ b :: ps := by
  intro ps
  induction ps with
  | nil =>
    intro b
    simp
  | cons q ps ih =>
    intro b
    simp only [List.foldl_cons]
    rcases List.mem_cons.mp (ih (if w q < w b then q else b)) with h | h
    · rw [h]
      split
      · exact List.mem_cons_of_mem _ (List.mem_cons_self _ _)
      · exact List.mem_cons_self _ _
    · exact List.mem_cons_of_mem _ (List.mem_cons_of_mem _ h)

theorem foldlMin_le (w : List Node → ℚ) :
    ∀ (ps : List (List Node)) (b : List Node),
      w (ps.foldl (fun best q => if w q < w best then q else best) b) ≤ w b ∧
      ∀ q ∈ ps,
        w (ps.foldl (fun best q => if w q < w best then q else best) b) ≤ w q := by
  intro ps
  induction ps with
  | nil =>
    intro b
    refine ⟨le_refl _, ?_⟩
    intro q hq
    cases hq
  | cons q ps ih =>
    intro b
    simp only [List.foldl_cons]
    obtain ⟨ha, hb⟩ := ih (if w q < w b then q else b)
    have hle : w (if w q < w b then q else b) ≤ w b ∧
        w (if w q < w b then q else b) ≤ w q := by
      split
      · rename_i hlt
        exact ⟨le_of_lt hlt, le_refl _⟩
      · rename_i hlt
        exact ⟨le_refl _, le_of_not_lt hlt⟩
    refine ⟨le_trans ha hle.1, ?_⟩
    intro r hr
    rcases List.mem_cons.mp hr with h | h
    · subst h
      exact le_trans ha hle.2
    · exact hb r h

theorem selectMinBy_mem {w : List Node → ℚ} {l : List (List Node)}
    {p : List Node} (h : selectMinBy w l = some p) : p ∈ l := by
  cases l with
  | nil => cases h
  | cons q ps =>
    simp only [selectMinBy] at h
    injection h with h
    subst h
    exact foldlMin_mem w ps q

theorem selectMinBy_min {w : List Node → ℚ} {l : List (List Node)}
    {p : List Node} (h : selectMinBy w l = some p) : ∀ q ∈ l, w p ≤ w q := by
  cases l with
  | nil => cases h
  | cons q ps =>
    simp only [selectMinBy] at h
    injection h with h
    subst h
    intro r hr
    rcases List.mem_cons.mp hr with h | h
    · subst h
      exact (foldlMin_le w ps r).1
    · exact (foldlMin_le w ps q).2 r h

theorem selectMinBy_none {w : List Node → ℚ} {l : List (List Node)}
    (h : selectMinBy w l = none) : l = [] := by
  cases l with
  | nil => rfl
  | cons q ps => simp [selectMinBy] at h

theorem nearestFold_mem (lng lat : ℚ) :
    ∀ (rest : List (Node × NodeAttrs)) (best : Node × NodeAttrs),
      nearestFold lng lat best rest = best ∨
        nearestFold lng lat best rest ∈ rest := by
  intro rest
  induction rest with
  | nil =>
    intro best
    exact Or.inl rfl
  | cons c cs ih =>
    intro best
    simp only [nearestFold]
    rcases ih (if sqDist c.2 lng lat < sqDist best.2 lng lat then c else best)
      with h | h
    · rw [h]
      split
      · exact Or.inr (List.mem_cons_self _ _)
      · exact Or.inl rfl
    · exact Or.inr (List.mem_cons_of_mem _ h)

theorem nearest_nodes_mem {g : MultiGraph} {lng lat : ℚ} {n : Node}
    (h : nearest_nodes g lng lat = some n) : n ∈ nodeIds g := by
  unfold nearest_nodes at h
  cases hna : g.nodeAttrs with
  | nil => rw [hna] at h; cases h
  | cons e rest =>
    rw [hna] at h
    injection h with h
    subst h
    unfold nodeIds
    rw [hna]
    rcases nearestFold_mem lng lat rest e with hh | hh
    · rw [hh]
      exact List.mem_map.mpr ⟨e, List.mem_cons_self _ _, rfl⟩
    · exact List.mem_map.mpr ⟨_, List.mem_cons_of_mem _ hh, rfl⟩

theorem get_nearest_node_of_miss (st : SysState) {lat lng : ℚ}
    {g : MultiGraph} {n : Node}
    (hc : cacheLookup st.nnCache (lat, lng) = none)
    (hg : st.graph = some g) (hn : nearest_nodes g lng lat = some n) :
    get_nearest_node st lat lng =
      (.ok n, { st with nnCache := cacheInsert st.nnCache (lat, lng) n,
                        nnCalls := st.nnCalls + 1 }) := by
  simp only [get_nearest_node, hc, hg, hn]

theorem get_nearest_node_of_hit (st : SysState) {lat lng : ℚ} {n : Node}
    (hc : cacheLookup st.nnCache (lat, lng) = some n) :
    get_nearest_node st lat lng =
      (.ok n, { st with nnCache := cacheTouch st.nnCache (lat, lng) }) := by
  simp only [get_nearest_node, hc]

theorem cacheLookup_insert_other (c : List ((ℚ × ℚ) × Node)) {k k2 : ℚ × ℚ}
    {n : Node} (h : cacheLookup c k2 = none) (hne : k2 ≠ k) :
    cacheLookup (cacheInsert c k n) k2 = none := by
  have hfc : c.find? (fun e => decide (e.1 = k2)) = none := by
    cases hf : c.find? (fun e => decide (e.1 = k2)) with
    | none => rfl
    | some e =>
      unfold cacheLookup at h
      rw [hf] at h
      cases h
  have hkn : (decide ((k, n).1 = k2)) = false :=
    decide_eq_false (fun hh => hne hh.symm)
  have htake : List.find? (fun e => decide (e.1 = k2)) (c.take 999) = none := by
    rw [List.find?_eq_none]
    intro x hx
    rw [List.find?_eq_none] at hfc
    exact hfc x (List.mem_of_mem_take hx)
  simp only [cacheLookup, cacheInsert, List.take_succ_cons, List.find?_cons,
    hkn, htake]
  rfl

theorem nx_shortest_path_eq (g : MultiGraph) (s t : Node)
    (hs : s ∈ nodeIds g) (ht : t ∈ nodeIds g) :
    nx_shortest_path g s t =
      (match selectMinBy (pathWeight g) (pathsBetween g s t) with
       | some p => .ok p
       | none => .error .noPath) := by
  unfold nx_shortest_path
  rw [if_pos hs, if_pos ht]

/-- C3: on a cold cache, `find_shortest_path` resolves the two
coordinates to the nearest graph nodes and returns either a simple path
from the first to the second of minimal cumulative travel-time weight,
or the `None` signal exactly when no path between the resolved nodes
exists. -/
theorem find_shortest_path_correct
    (st : SysState) (g : MultiGraph) (olat olng dlat dlng : ℚ) (no nd : Node)
    (hg : st.graph = some g)
    (hwf : GraphWf g)
    (hco : cacheLookup st.nnCache (olat, olng) = none)
    (hcd : cacheLookup st.nnCache (dlat, dlng) = none)
    (hno : nearest_nodes g olng olat = some no)
    (hnd : nearest_nodes g dlng dlat = some nd) :
    ((∃ p, (find_shortest_path st [olat, olng] [dlat, dlng]).1 =
        .ok (some p)) ∨
      (find_shortest_path st [olat, olng] [dlat, dlng]).1 = .ok none) ∧
    (∀ p, (find_shortest_path st [olat, olng] [dlat, dlng]).1 =
        .ok (some p) →
      SimplePath g no nd p ∧
        ∀ q, SimplePath g no nd q → pathWeight g p ≤ pathWeight g q) ∧
    ((find_shortest_path st [olat, olng] [dlat, dlng]).1 = .ok none →
      ∀ q, ¬ SimplePath g no nd q) := by
  have hmo : no ∈ nodeIds g := nearest_nodes_mem hno
  have hmd : nd ∈ nodeIds g := nearest_nodes_mem hnd
  have h1 := get_nearest_node_of_miss st hco hg hno
  have hres : (find_shortest_path st [olat, olng] [dlat, dlng]).1 =
      (match selectMinBy (pathWeight g) (pathsBetween g no nd) with
       | some p => Except.ok (some p)
       | none => Except.ok none) := by
    by_cases hkey : ((dlat, dlng) : ℚ × ℚ) = (olat, olng)
    · injection hkey with hk1 hk2
      subst hk1
      subst hk2
      rw [hno] at hnd
      injection hnd with hnd2
      subst hnd2
      have h2 := get_nearest_node_of_hit
        { st with nnCache := cacheInsert st.nnCache (dlat, dlng) no,
                  nnCalls := st.nnCalls + 1 }
        (cacheLookup_insert st.nnCache (dlat, dlng) no)
      rw [hg] at h1 h2
      simp only [find_shortest_path, h1, h2,
        nx_shortest_path_eq g no no hmo hmo]
      cases selectMinBy (pathWeight g) (pathsBetween g no no) <;> rfl
    · have hlook2 : cacheLookup
          (cacheInsert st.nnCache (olat, olng) no) (dlat, dlng) = none :=
        cacheLookup_insert_other st.nnCache hcd hkey
      have h2 := get_nearest_node_of_miss
        { st with nnCache := cacheInsert st.nnCache (olat, olng) no,
                  nnCalls := st.nnCalls + 1 }
        hlook2 hg hnd
      rw [hg] at h1 h2
      simp only [find_shortest_path, h1, h2,
        nx_shortest_path_eq g no nd hmo hmd]
      cases selectMinBy (pathWeight g) (pathsBetween g no nd) <;> rfl
  cases hsel : selectMinBy (pathWeight g) (pathsBetween g no nd) with
  | some p =>
    rw [hsel] at hres
    refine ⟨Or.inl ⟨p, hres⟩, ?_, ?_⟩
    · intro p2 hp2
      rw [hres] at hp2
      injection hp2 with hp2
      injection hp2 with hp2
      subst hp2
      refine ⟨pathsBetween_sound (selectMinBy_mem hsel), ?_⟩
      intro q hq
      exact selectMinBy_min hsel q (pathsBetween_complete hwf hmo hq)
    · intro hcontra
      rw [hres] at hcontra
      injection hcontra with hcontra
      cases hcontra
  | none =>
    rw [hsel] at hres
    refine ⟨Or.inr hres, ?_, ?_⟩
    · intro p2 hp2
      rw [hres] at hp2
      injection hp2 with hp2
      cases hp2
    · intro _ q hq
      have hmem := pathsBetween_complete hwf hmo hq
      rw [selectMinBy_none hsel] at hmem
      cases hmem

theorem foldl_pairStepLen_error (g : MultiGraph) (e : Exn) :
    ∀ prs : List (Node × Node),
      prs.foldl (pairStepLen g) (.error e) = .error e := by
  intro prs
  induction prs with
  | nil => rfl
  | cons uv prs ih => simpa [List.foldl_cons, pairStepLen] using ih

theorem foldl_pairStepTT_error (g : MultiGraph) (e : Exn) :
    ∀ prs : List (Node × Node),
      prs.foldl (pairStepTT g) (.error e) = .error e := by
  intro prs
  induction prs with
  | nil => rfl
  | cons uv prs ih => simpa [List.foldl_cons, pairStepTT] using ih

theorem statSumLen_eq_pairs (g : MultiGraph) :
    ∀ (path : List Node) (acc : Except Exn ℚ),
      (List.range (path.length - 1)).foldl (stepLen g path) acc =
      (path.zip path.tail).foldl (pairStepLen g) acc := by
  intro path
  induction path with
  | nil => intro acc; rfl
  | cons u rest ih =>
    intro acc
    cases rest with
    | nil => rfl
    | cons v rest2 =>
      have hlen : (u :: v :: rest2).length - 1 = rest2.length + 1 := by simp
      rw [hlen, List.range_succ_eq_map, List.foldl_cons, List.foldl_map]
      have hstep0 : stepLen g (u :: v :: rest2) acc 0 =
          pairStepLen g acc (u, v) := by
        cases acc <;> rfl
      have hshift : (fun (x : Except Exn ℚ) (y : ℕ) =>
          stepLen g (u :: v :: rest2) x (Nat.succ y)) =
          stepLen g (v :: rest2) := by
        funext a i
        cases a <;> rfl
      rw [hstep0, hshift]
      have hzip : ((u :: v :: rest2).zip (u :: v :: rest2).tail) =
          (u, v) :: ((v :: rest2).zip (v :: rest2).tail) := rfl
      rw [hzip, List.foldl_cons]
      exact ih (pairStepLen g acc (u, v))

theorem statSumTT_eq_pairs (g : MultiGraph) :
    ∀ (path : List Node) (acc : Except Exn ℚ),
      (List.range (path.length - 1)).foldl (stepTT g path) acc =
      (path.zip path.tail).foldl (pairStepTT g) acc := by
  intro path
  induction path with
  | nil => intro acc; rfl
  | cons u rest ih =>
    intro acc
    cases rest with
    | nil => rfl
    | cons v rest2 =>
      have hlen : (u :: v :: rest2).length - 1 = rest2.length + 1 := by simp
      rw [hlen, List.range_succ_eq_map, List.foldl_cons, List.foldl_map]
      have hstep0 : stepTT g (u :: v :: rest2) acc 0 =
          pairStepTT g acc (u, v) := by
        cases acc <;> rfl
      have hshift : (fun (x : Except Exn ℚ) (y : ℕ) =>
          stepTT g (u :: v :: rest2) x (Nat.succ y)) =
          stepTT g (v :: rest2) := by
        funext a i
        cases a <;> rfl
      rw [hstep0, hshift]
      have hzip : ((u :: v :: rest2).zip (u :: v :: rest2).tail) =
          (u, v) :: ((v :: rest2).zip (v :: rest2).tail) := rfl
      rw [hzip, List.foldl_cons]
      exact ih (pairStepTT g acc (u, v))

theorem pairsFoldLen_ok (g : MultiGraph) :
    ∀ (prs : List (Node × Node)) (a D : ℚ),
      prs.foldl (pairStepLen g) (.ok a) = .ok D →
      ∃ s, specPairsLen g prs = some s ∧ D = a + s := by
  intro prs
  induction prs with
  | nil =>
    intro a D h
    injection h with h
    exact ⟨0, rfl, by rw [← h]; ring⟩
  | cons uv prs ih =>
    intro a D h
    rw [List.foldl_cons] at h
    cases he : edge0 g uv.1 uv.2 with
    | none =>
      rw [show pairStepLen g (.ok a) uv = .error (.keyError "edge") by
        simp [pairStepLen, he]] at h
      rw [foldl_pairStepLen_error] at h
      cases h
    | some e =>
      rw [show pairStepLen g (.ok a) uv = .ok (a + e.length) by
        simp [pairStepLen, he]] at h
      obtain ⟨s, hs, hD⟩ := ih (a + e.length) D h
      refine ⟨e.length + s, ?_, by rw [hD]; ring⟩
      simp [specPairsLen, he, hs]

theorem pairsFoldTT_ok (g : MultiGraph) :
    ∀ (prs : List (Node × Node)) (a D : ℚ),
      prs.foldl (pairStepTT g) (.ok a) = .ok D →
      ∃ s, specPairsTT g prs = some s ∧ D = a + s := by
  intro prs
  induction prs with
  | nil =>
    intro a D h
    injection h with h
    exact ⟨0, rfl, by rw [← h]; ring⟩
  | cons uv prs ih =>
    intro a D h
    rw [List.foldl_cons] at h
    cases he : edge0 g uv.1 uv.2 with
    | none =>
      rw [show pairStepTT g (.ok a) uv = .error (.keyError "edge") by
        simp [pairStepTT, he]] at h
      rw [foldl_pairStepTT_error] at h
      cases h
    | some e =>
      cases htt : e.travel_time with
      | none =>
        rw [show pairStepTT g (.ok a) uv = .error (.keyError "travel_time") by
          simp [pairStepTT, he, htt]] at h
        rw [foldl_pairStepTT_error] at h
        cases h
      | some tt =>
        rw [show pairStepTT g (.ok a) uv = .ok (a + tt) by
          simp [pairStepTT, he, htt]] at h
        obtain ⟨s, hs, hD⟩ := ih (a + tt) D h
        refine ⟨tt + s, ?_, by rw [hD]; ring⟩
        simp [specPairsTT, he, htt, hs]

theorem statSumLen_ok {g : MultiGraph} {path : List Node} {D : ℚ}
    (h : statSumLen g path = .ok D) : specSumLen g path = some D := by
  unfold statSumLen at h
  rw [statSumLen_eq_pairs] at h
  obtain ⟨s, hs, hD⟩ := pairsFoldLen_ok g _ 0 D h
  unfold specSumLen
  rw [hs, hD]
  norm_num

theorem statSumTT_ok {g : MultiGraph} {path : List Node} {T : ℚ}
    (h : statSumTT g path = .ok T) : specSumTT g path = some T := by
  unfold statSumTT at h
  rw [statSumTT_eq_pairs] at h
  obtain ⟨s, hs, hT⟩ := pairsFoldTT_ok g _ 0 T h
  unfold specSumTT
  rw [hs, hT]
  norm_num

theorem create_route_map_ok {st : SysState} {origin : List ℚ} {p0 : Node}
    {prest : List Node} {g : MultiGraph} {coords : List (ℚ × ℚ)}
    (hg : st.graph = some g)
    (h : create_route_map st origin (p0 :: prest) = some coords) :
    pathCoords g (p0 :: prest) = some coords := by
  simp only [create_route_map, hg] at h
  cases hpc : pathCoords g (p0 :: prest) with
  | none =>
    rw [hpc] at h
    simp only at h
    exact absurd h (by simp)
  | some cs =>
    rw [hpc] at h
    simp only at h
    split at h
    · injection h with h
      rw [h]
    · exact absurd h (by simp)

/-- C2: whenever the handler answers 200, the response is built from the
very path that `find_shortest_path` returned: the returned `path` field
holds that path's coordinates, and the returned `total_distance` and
`estimated_time` equal the sums, over its consecutive node pairs, of the
`length` and `travel_time` attributes of the parallel edge at index 0. -/
theorem response_stats_sums (st st1 : SysState) (body : ReqBody)
    (coords : List (ℚ × ℚ)) (D T : ℚ)
    (h : shortest_path_handler st body = (.ok coords D T, st1)) :
    ∃ (g : MultiGraph) (path : List Node) (origin destination : List ℚ),
      dictGet body "origin" = .ok origin ∧
      dictGet body "destination" = .ok destination ∧
      (find_shortest_path st origin destination).1 = .ok (some path) ∧
      st1.graph = some g ∧
      pathCoords g path = some coords ∧
      specSumLen g path = some D ∧ specSumTT g path = some T := by
  unfold shortest_path_handler at h
  cases hc : shortest_path_core st body with
  | mk r st2 =>
    rw [hc] at h
    cases r with
    | error e =>
      simp only at h
      exact absurd (congrArg Prod.fst h) (by simp)
    | ok resp =>
      simp only at h
      injection h with h1 h2
      subst h2
      subst h1
      unfold shortest_path_core at hc
      cases ho : dictGet body "origin" with
      | error e =>
        rw [ho] at hc
        exact absurd (congrArg Prod.fst hc) (by simp)
      | ok origin =>
        rw [ho] at hc
        cases hd : dictGet body "destination" with
        | error e =>
          rw [hd] at hc
          simp only at hc
          exact absurd (congrArg Prod.fst hc) (by simp)
        | ok destination =>
          rw [hd] at hc
          simp only at hc
          cases hf : find_shortest_path st origin destination with
          | mk rr stf =>
            rw [hf] at hc
            cases rr with
            | error e =>
              simp only at hc
              exact absurd (congrArg Prod.fst hc) (by simp)
            | ok pathOpt =>
              simp only at hc
              cases pathOpt with
              | none => exact absurd (congrArg Prod.fst hc) (by simp)
              | some path =>
                cases path with
                | nil => exact absurd (congrArg Prod.fst hc) (by simp)
                | cons p0 prest =>
                  simp only at hc
                  cases hm : create_route_map stf origin (p0 :: prest) with
                  | none =>
                    rw [hm] at hc
                    exact absurd (congrArg Prod.fst hc) (by simp)
                  | some coords2 =>
                    rw [hm] at hc
                    simp only at hc
                    cases hgr : stf.graph with
                    | none =>
                      rw [hgr] at hc
                      exact absurd (congrArg Prod.fst hc) (by simp)
                    | some g =>
                      rw [hgr] at hc
                      simp only at hc
                      cases hl : statSumLen g (p0 :: prest) with
                      | error e =>
                        rw [hl] at hc
                        exact absurd (congrArg Prod.fst hc) (by simp)
                      | ok dist =>
                        rw [hl] at hc
                        simp only at hc
                        cases ht2 : statSumTT g (p0 :: prest) with
                        | error e =>
                          rw [ht2] at hc
                          exact absurd (congrArg Prod.fst hc) (by simp)
                        | ok time =>
                          rw [ht2] at hc
                          simp only at hc
                          have hfst := congrArg Prod.fst hc
                          have hsnd := congrArg Prod.snd hc
                          simp only at hfst hsnd
                          injection hfst with hfst
                          injection hfst with hco hdi hti
                          subst hsnd
                          subst hdi
                          subst hti
                          have hpc : pathCoords g (p0 :: prest) =
                              some coords2 := create_route_map_ok hgr hm
                          rw [hco] at hpc
                          refine ⟨g, p0 :: prest, origin, destination, rfl,
                            rfl, ?_, hgr, hpc, statSumLen_ok hl,
                            statSumTT_ok ht2⟩
                          rw [hf]

theorem simplePathsAux_self (g : MultiGraph) (t : Node) (f : ℕ)
    (vis : List Node) : simplePathsAux g t f t vis = [[t]] := by
  cases f <;> simp [simplePathsAux]

theorem nx_no_path (g : MultiGraph) (no nd : Node)
    (hnp : (∀ q, ¬ SimplePath g no nd q) ∨ no ∉ nodeIds g ∨ nd ∉ nodeIds g) :
    nx_shortest_path g no nd = .error .noPath ∨
      nx_shortest_path g no nd = .error .nodeNotFound := by
  unfold nx_shortest_path
  by_cases hs : no ∈ nodeIds g
  · by_cases ht : nd ∈ nodeIds g
    · rw [if_pos hs, if_pos ht]
      rcases hnp with hnp | hnp | hnp
      · have hempty : pathsBetween g no nd = [] := by
          cases hpb : pathsBetween g no nd with
          | nil => rfl
          | cons p ps =>
            exact absurd (pathsBetween_sound (hpb ▸ List.mem_cons_self p ps))
              (hnp p)
        rw [hempty]
        left
        rfl
      · exact absurd hs hnp
      · exact absurd ht hnp
    · rw [if_pos hs, if_neg ht]
      right
      rfl
  · rw [if_neg hs]
    right
    rfl

theorem find_none_of_nx_error (st st1 st2 : SysState)
    (olat olng dlat dlng : ℚ) (no nd : Node) (g : MultiGraph)
    (h1 : get_nearest_node st olat olng = (.ok no, st1))
    (h2 : get_nearest_node st1 dlat dlng = (.ok nd, st2))
    (hg2 : st2.graph = some g)
    (hnx : nx_shortest_path g no nd = .error .noPath ∨
      nx_shortest_path g no nd = .error .nodeNotFound) :
    find_shortest_path st [olat, olng] [dlat, dlng] = (.ok none, st2) := by
  rcases hnx with hnx | hnx <;>
    simp only [find_shortest_path, h1, h2, hg2, hnx]

/-- C6: when the two coordinates resolve (through the memoized lookup)
to nodes between which no path exists — or to a node that is not in the
graph — the handler answers status 404 with exactly the body
`error = "No path found between the given points"`. -/
theorem no_path_yields_404 (st st1 st2 : SysState) (g : MultiGraph)
    (body : ReqBody) (olat olng dlat dlng : ℚ) (no nd : Node)
    (hbo : dictGet body "origin" = .ok [olat, olng])
    (hbd : dictGet body "destination" = .ok [dlat, dlng])
    (h1 : get_nearest_node st olat olng = (.ok no, st1))
    (h2 : get_nearest_node st1 dlat dlng = (.ok nd, st2))
    (hg2 : st2.graph = some g)
    (hnp : (∀ q, ¬ SimplePath g no nd q) ∨ no ∉ nodeIds g ∨ nd ∉ nodeIds g) :
    shortest_path_handler st body =
      (.err 404 "No path found between the given points", st2) := by
  have hfind := find_none_of_nx_error st st1 st2 olat olng dlat dlng no nd g
    h1 h2 hg2 (nx_no_path g no nd hnp)
  simp only [shortest_path_handler, shortest_path_core, hbo, hbd, hfind]

/-- C7: a request whose origin equals its destination (and resolves to a
graph node) gets a 200 response with the single coordinate of that node
and statistics that are both zero. -/
theorem same_origin_destination_zero (st : SysState) (g : MultiGraph)
    (body : ReqBody) (lat lng : ℚ) (n : Node) (a : NodeAttrs)
    (hbo : dictGet body "origin" = .ok [lat, lng])
    (hbd : dictGet body "destination" = .ok [lat, lng])
    (hg : st.graph = some g)
    (hco : cacheLookup st.nnCache (lat, lng) = none)
    (hnn : nearest_nodes g lng lat = some n)
    (hattrs : lookupNode g n = some a) :
    (shortest_path_handler st body).1 = .ok [(a.y, a.x)] 0 0 := by
  have h1 := get_nearest_node_of_miss st hco hg hnn
  have h2 := get_nearest_node_of_hit
    { st with nnCache := cacheInsert st.nnCache (lat, lng) n,
              nnCalls := st.nnCalls + 1 }
    (cacheLookup_insert st.nnCache (lat, lng) n)
  rw [hg] at h1 h2
  have hmem : n ∈ nodeIds g := nearest_nodes_mem hnn
  have hnx : nx_shortest_path g n n = .ok [n] := by
    unfold nx_shortest_path
    rw [if_pos hmem, if_pos hmem]
    unfold pathsBetween
    rw [simplePathsAux_self]
    rfl
  simp only [shortest_path_handler, shortest_path_core, hbo, hbd,
    find_shortest_path, h1, h2, hnx, create_route_map, pathCoords, hattrs,
    statSumLen, statSumTT, List.length_cons, List.length_nil,
    Nat.zero_add, Nat.sub_self, List.range_zero, List.foldl_nil]
  norm_num

/-- C8: a malformed request body (here: a missing `origin` key) — and in
general any exception escaping the handler body — is caught at the
handler boundary and surfaced as status 500 with the exception's own
text as the error message. -/
theorem handler_errors_500 (st : SysState) (body : ReqBody) :
    (dictGet body "origin" = .error (.keyError "origin") →
      shortest_path_handler st body =
        (.err 500 (exnMsg (.keyError "origin")), st)) ∧
    (∀ e st1, shortest_path_core st body = (.error e, st1) →
      shortest_path_handler st body = (.err 500 (exnMsg e), st1)) := by
  constructor
  · intro h
    simp only [shortest_path_handler, shortest_path_core, h]
  · intro e st1 h
    simp only [shortest_path_handler, h]

theorem get_nearest_node_frame (st : SysState) (lat lng : ℚ) :
    ((get_nearest_node st lat lng).2).graph = st.graph ∧
    ((get_nearest_node st lat lng).2).lastUpdate = st.lastUpdate ∧
    ((get_nearest_node st lat lng).2).cacheFile = st.cacheFile := by
  cases hcl : cacheLookup st.nnCache (lat, lng) with
  | some n => simp [get_nearest_node, hcl]
  | none =>
    cases hg : st.graph with
    | none => simp [get_nearest_node, hcl, hg]
    | some g =>
      cases hn : nearest_nodes g lng lat with
      | none => simp [get_nearest_node, hcl, hg, hn]
      | some n => simp [get_nearest_node, hcl, hg, hn]

theorem find_shortest_path_frame (st : SysState) (o d : List ℚ) :
    ((find_shortest_path st o d).2).graph = st.graph ∧
    ((find_shortest_path st o d).2).lastUpdate = st.lastUpdate ∧
    ((find_shortest_path st o d).2).cacheFile = st.cacheFile := by
  match o with
  | [] => exact ⟨rfl, rfl, rfl⟩
  | [_] => exact ⟨rfl, rfl, rfl⟩
  | _ :: _ :: _ :: _ => exact ⟨rfl, rfl, rfl⟩
  | [olat, olng] =>
    cases hg1 : get_nearest_node st olat olng with
    | mk r1 st1 =>
      have hf1 := get_nearest_node_frame st olat olng
      rw [hg1] at hf1
      cases r1 with
      | error e =>
        simp only [find_shortest_path, hg1]
        exact hf1
      | ok n1 =>
        match d with
        | [] =>
          simp only [find_shortest_path, hg1]
          exact hf1
        | [_] =>
          simp only [find_shortest_path, hg1]
          exact hf1
        | _ :: _ :: _ :: _ =>
          simp only [find_shortest_path, hg1]
          exact hf1
        | [dlat, dlng] =>
          cases hg2 : get_nearest_node st1 dlat dlng with
          | mk r2 st2 =>
            have hf2 := get_nearest_node_frame st1 dlat dlng
            rw [hg2] at hf2
            have hcomb : st2.graph = st.graph ∧
                st2.lastUpdate = st.lastUpdate ∧
                st2.cacheFile = st.cacheFile := by
              refine ⟨?_, ?_, ?_⟩
              · rw [show st2.graph = st1.graph from hf2.1, hf1.1]
              · rw [show st2.lastUpdate = st1.lastUpdate from hf2.2.1,
                  hf1.2.1]
              · rw [show st2.cacheFile = st1.cacheFile from hf2.2.2,
                  hf1.2.2]
            cases r2 with
            | error e =>
              simp only [find_shortest_path, hg1, hg2]
              exact hcomb
            | ok n2 =>
              have hcomb2 : ∀ x : Option MultiGraph, st2.graph = x →
                  x = st.graph ∧ st2.lastUpdate = st.lastUpdate ∧
                    st2.cacheFile = st.cacheFile := by
                intro x hx
                exact ⟨by rw [← hx]; exact hcomb.1, hcomb.2.1, hcomb.2.2⟩
              cases hgg : st2.graph with
              | none =>
                simp only [find_shortest_path, hg1, hg2, hgg]
                exact hcomb2 none hgg
              | some g =>
                cases hnx : nx_shortest_path g n1 n2 with
                | ok p =>
                  simp only [find_shortest_path, hg1, hg2, hgg, hnx]
                  exact hcomb2 (some g) hgg
                | error e =>
                  cases e <;>
                  · simp only [find_shortest_path, hg1, hg2, hgg, hnx]
                    exact hcomb2 (some g) hgg

theorem shortest_path_core_frame (st : SysState) (body : ReqBody) :
    ((shortest_path_core st body).2).graph = st.graph ∧
    ((shortest_path_core st body).2).lastUpdate = st.lastUpdate ∧
    ((shortest_path_core st body).2).cacheFile = st.cacheFile := by
  cases ho : dictGet body "origin" with
  | error e => simp [shortest_path_core, ho]
  | ok origin =>
    cases hd : dictGet body "destination" with
    | error e => simp [shortest_path_core, ho, hd]
    | ok destination =>
      cases hf : find_shortest_path st origin destination with
      | mk r st1 =>
        have hfr := find_shortest_path_frame st origin destination
        rw [hf] at hfr
        cases r with
        | error e =>
          simp only [shortest_path_core, ho, hd, hf]
          exact hfr
        | ok pathOpt =>
          cases pathOpt with
          | none =>
            simp only [shortest_path_core, ho, hd, hf]
            exact hfr
          | some path =>
            cases path with
            | nil =>
              simp only [shortest_path_core, ho, hd, hf]
              exact hfr
            | cons p0 prest =>
              cases hm : create_route_map st1 origin (p0 :: prest) with
              | none =>
                simp only [shortest_path_core, ho, hd, hf, hm]
                exact hfr
              | some coords =>
                have hfr2 : ∀ x : Option MultiGraph, st1.graph = x →
                    x = st.graph ∧ st1.lastUpdate = st.lastUpdate ∧
                      st1.cacheFile = st.cacheFile := by
                  intro x hx
                  exact ⟨by rw [← hx]; exact hfr.1, hfr.2.1, hfr.2.2⟩
                cases hgg : st1.graph with
                | none =>
                  simp only [shortest_path_core, ho, hd, hf, hm, hgg]
                  exact hfr2 none hgg
                | some g =>
                  cases hl : statSumLen g (p0 :: prest) with
                  | error e =>
                    simp only [shortest_path_core, ho, hd, hf, hm, hgg, hl]
                    exact hfr2 (some g) hgg
                  | ok dist =>
                    cases ht : statSumTT g (p0 :: prest) with
                    | error e =>
                      simp only [shortest_path_core, ho, hd, hf, hm, hgg,
                        hl, ht]
                      exact hfr2 (some g) hgg
                    | ok time =>
                      simp only [shortest_path_core, ho, hd, hf, hm, hgg,
                        hl, ht]
                      exact hfr2 (some g) hgg

/-- C10: handling a request never changes the in-memory graph, the
refresh timestamp, or the on-disk cache file: the only state a request
can touch is the nearest-node memoization cache (and its call
counter). -/
theorem handler_preserves_graph_state (st : SysState) (body : ReqBody) :
    ((shortest_path_handler st body).2).graph = st.graph ∧
    ((shortest_path_handler st body).2).lastUpdate = st.lastUpdate ∧
    ((shortest_path_handler st body).2).cacheFile = st.cacheFile := by
  cases hc : shortest_path_core st body with
  | mk r st1 =>
    have hf := shortest_path_core_frame st body
    rw [hc] at hf
    cases r with
    | error e =>
      simp only [shortest_path_handler, hc]
      exact hf
    | ok resp =>
      simp only [shortest_path_handler, hc]
      exact hf

theorem no_simple_path_no_edges (g : MultiGraph) (s t : Node) (hne : s ≠ t)
    (hadj : g.adj = []) : ∀ q, ¬ SimplePath g s t q := by
  intro q hq
  obtain ⟨h1, h2, h3, _⟩ := hq
  cases q with
  | nil => cases h1
  | cons x xs =>
    rw [List.head?_cons] at h1
    injection h1 with h1
    cases xs with
    | nil =>
      simp only [List.getLast?_singleton] at h2
      injection h2 with h2
      exact hne (h1 ▸ h2 ▸ rfl)
    | cons y ys =>
      simp only [isPathList, Bool.and_eq_true] at h3
      have hfalse : edgeExists g x y = false := by
        unfold edgeExists edgesBetween
        rw [hadj]
        rfl
      rw [h3.1] at hfalse
      cases hfalse

theorem download_edges_normalized_witness :
    download_and_cache_graph stEmpty envPlace = (stDl, none) ∧
    ∃ raw : MultiGraph,
      (envPlace.placeResult = some raw ∨ envPlace.bboxResult = some raw) ∧
      stDl.graph = some (annotateGraph raw).1 ∧
      graphSpecNorm raw (annotateGraph raw).1 := by
  have h : download_and_cache_graph stEmpty envPlace = (stDl, none) := by
    norm_num +decide [download_and_cache_graph, download_using_bbox,
      annotateGraph, annotateAdj, annotateEdges, annotateEdge,
      annotateFinish, stEmpty, envPlace, gRaw, gW, stDl]
  exact ⟨h, download_edges_normalized stEmpty stDl envPlace h⟩

theorem response_stats_sums_witness :
    shortest_path_handler stW bodyOD = (.ok [(0, 0), (3, 4)] 100 9, stWOut) ∧
    ∃ (g : MultiGraph) (path : List Node) (origin destination : List ℚ),
      dictGet bodyOD "origin" = .ok origin ∧
      dictGet bodyOD "destination" = .ok destination ∧
      (find_shortest_path stW origin destination).1 = .ok (some path) ∧
      stWOut.graph = some g ∧
      pathCoords g path = some [(0, 0), (3, 4)] ∧
      specSumLen g path = some 100 ∧ specSumTT g path = some 9 := by
  have h : shortest_path_handler stW bodyOD =
      (.ok [(0, 0), (3, 4)] 100 9, stWOut) := by
    norm_num +decide [shortest_path_handler, shortest_path_core, dictGet,
      find_shortest_path, get_nearest_node, cacheLookup, cacheTouch,
      cacheInsert, nearest_nodes, nearestFold, sqDist, nx_shortest_path,
      pathsBetween, simplePathsAux, successors, edgeExists, edgesBetween,
      edge0, edge0At, selectMinBy, pathWeight, nxWeight, nodeIds, lookupNode,
      create_route_map, pathCoords, statSumLen, statSumTT, stepLen, stepTT,
      List.find?_cons, List.find?_nil, List.take_succ_cons, List.take_nil,
      List.dedup_cons_of_mem, List.dedup_cons_of_not_mem, List.dedup_nil,
      List.flatMap_cons, List.flatMap_nil, List.filter_cons, List.filter_nil,
      List.map_cons, List.map_nil, List.range_succ, List.range_zero,
      List.foldl_cons, List.foldl_nil, List.getD_cons_zero,
      List.getD_cons_succ, gW, stW, bodyOD, stWOut]
  exact ⟨h, response_stats_sums stW stWOut bodyOD [(0, 0), (3, 4)] 100 9 h⟩

theorem find_shortest_path_correct_witness :
    stW.graph = some gW ∧ GraphWf gW ∧
    cacheLookup stW.nnCache (-1, -1) = none ∧
    cacheLookup stW.nnCache (10, 10) = none ∧
    nearest_nodes gW (-1) (-1) = some 1 ∧
    nearest_nodes gW 10 10 = some 2 ∧
    (((∃ p, (find_shortest_path stW [-1, -1] [10, 10]).1 = .ok (some p)) ∨
      (find_shortest_path stW [-1, -1] [10, 10]).1 = .ok none) ∧
    (∀ p, (find_shortest_path stW [-1, -1] [10, 10]).1 = .ok (some p) →
      SimplePath gW 1 2 p ∧
        ∀ q, SimplePath gW 1 2 q → pathWeight gW p ≤ pathWeight gW q) ∧
    ((find_shortest_path stW [-1, -1] [10, 10]).1 = .ok none →
      ∀ q, ¬ SimplePath gW 1 2 q)) := by
  have hno : nearest_nodes gW (-1) (-1) = some 1 := by
    norm_num [nearest_nodes, nearestFold, sqDist, gW]
  have hnd : nearest_nodes gW 10 10 = some 2 := by
    norm_num [nearest_nodes, nearestFold, sqDist, gW]
  exact ⟨rfl, by decide, rfl, rfl, hno, hnd,
    find_shortest_path_correct stW gW (-1) (-1) 10 10 1 2 rfl (by decide)
      rfl rfl hno hnd⟩

theorem load_graph_spec_witness :
    should_update_graph stHolds envFresh.now = true ∧
    stHolds.cacheFile = .holds gW ∧
    load_graph stHolds envFresh =
      ({ stHolds with graph := some gW, lastUpdate := some envFresh.now },
        none) := by
  have h1 : should_update_graph stHolds envFresh.now = true := by decide
  exact ⟨h1, rfl, (load_graph_spec stHolds envFresh).2.1 gW h1 rfl⟩

theorem download_failure_propagates_witness :
    envFail.placeResult = none ∧ envFail.bboxResult = none ∧
    (download_and_cache_graph stEmpty envFail =
      ({ stEmpty with placeAttempts := stEmpty.placeAttempts + 1,
                      bboxAttempts := stEmpty.bboxAttempts + 1 },
        some .oxBboxError) ∧
    (stEmpty.graph = none → stEmpty.cacheFile = .absent →
      (load_graph stEmpty envFail).2 = some .oxBboxError ∧
      (load_graph stEmpty envFail).1.graph = none ∧
      (load_graph stEmpty envFail).1.cacheFile = .absent)) :=
  ⟨rfl, rfl, download_failure_propagates stEmpty envFail rfl rfl⟩

theorem no_path_yields_404_witness :
    dictGet bodyOD "origin" = .ok [-1, -1] ∧
    dictGet bodyOD "destination" = .ok [10, 10] ∧
    get_nearest_node stDisc (-1) (-1) = (.ok 1, stDisc1) ∧
    get_nearest_node stDisc1 10 10 = (.ok 2, stDisc2) ∧
    stDisc2.graph = some gDisc ∧
    (∀ q, ¬ SimplePath gDisc 1 2 q) ∧
    shortest_path_handler stDisc bodyOD =
      (.err 404 "No path found between the given points", stDisc2) := by
  have h1 : get_nearest_node stDisc (-1) (-1) = (.ok 1, stDisc1) := by
    norm_num [get_nearest_node, cacheLookup, cacheInsert, nearest_nodes,
      nearestFold, sqDist, stDisc, stDisc1, gDisc, List.find?_nil,
      List.take_succ_cons, List.take_nil]
  have h2 : get_nearest_node stDisc1 10 10 = (.ok 2, stDisc2) := by
    norm_num [get_nearest_node, cacheLookup, cacheInsert, nearest_nodes,
      nearestFold, sqDist, stDisc1, stDisc2, gDisc, List.find?_nil,
      List.find?_cons, List.take_succ_cons, List.take_nil]
  have hnp : ∀ q, ¬ SimplePath gDisc 1 2 q :=
    no_simple_path_no_edges gDisc 1 2 (by decide) rfl
  exact ⟨rfl, rfl, h1, h2, rfl, hnp,
    no_path_yields_404 stDisc stDisc1 stDisc2 gDisc bodyOD (-1) (-1) 10 10
      1 2 rfl rfl h1 h2 rfl (Or.inl hnp)⟩

theorem same_origin_destination_zero_witness :
    dictGet bodySame "origin" = .ok [10, 10] ∧
    dictGet bodySame "destination" = .ok [10, 10] ∧
    stW.graph = some gW ∧
    cacheLookup stW.nnCache (10, 10) = none ∧
    nearest_nodes gW 10 10 = some 2 ∧
    lookupNode gW 2 = some ⟨3, 4⟩ ∧
    (shortest_path_handler stW bodySame).1 = .ok [(3, 4)] 0 0 := by
  have hnn : nearest_nodes gW 10 10 = some 2 := by
    norm_num [nearest_nodes, nearestFold, sqDist, gW]
  exact ⟨rfl, rfl, rfl, rfl, hnn, rfl,
    same_origin_destination_zero stW gW bodySame 10 10 2 ⟨3, 4⟩ rfl rfl rfl
      rfl hnn rfl⟩

theorem handler_errors_500_witness :
    dictGet bodyNoOrigin "origin" = .error (.keyError "origin") ∧
    shortest_path_handler stEmpty bodyNoOrigin =
      (.err 500 (exnMsg (.keyError "origin")), stEmpty) := by
  have h : dictGet bodyNoOrigin "origin" = .error (.keyError "origin") := rfl
  exact ⟨h, (handler_errors_500 stEmpty bodyNoOrigin).1 h⟩

theorem nearest_node_cache_hit_witness :
    get_nearest_node stW 10 10 = (.ok 2, stW9b) ∧
    ((get_nearest_node { stW9b with graph := none } 10 10).1 = .ok 2 ∧
    ((get_nearest_node { stW9b with graph := none } 10 10).2).nnCalls =
      ({ stW9b with graph := none } : SysState).nnCalls) := by
  have h : get_nearest_node stW 10 10 = (.ok 2, stW9b) := by
    norm_num [get_nearest_node, cacheLookup, cacheInsert, nearest_nodes,
      nearestFold, sqDist, stW, stW9b, gW, List.find?_nil,
      List.take_succ_cons, List.take_nil]
  exact ⟨h, nearest_node_cache_hit stW stW9b 10 10 2 h none⟩
